import Mathlib

/-!
# iamaigo: the Bot orchestrator and the terminal logger

A shallow embedding of `main.go` (the `Bot` type, its registries, event dispatch,
the module loader and the `Run` lifecycle) and of `terminalcolor/color.go`
(the message that `LogWithColorAndStyle.Print` builds).

Conventions of the embedding.

* Adapters and plugins are opaque capability values supplied from outside.  Their
  fallible methods are functions on an explicit world state `W` returning an optional
  error text (`none` is Go's `nil` error) and the next world.  `Name()` is a field: the
  orchestrator uses it only as a stable lookup key.
* Every operation of `Bot` returns the bot it leaves behind and the list of actions it
  performed, in program order (`Act`): mutex operations, registry accesses, calls into
  adapters and plugins, goroutine launches and calls of `Print`.
* `Run` is the main goroutine together with a scheduler: a `Start` goroutine that `Run`
  has launched runs, to its end in one piece, at a point between two steps of the main
  goroutine where the scheduler picks it, or not at all before `Run` returns.  The theorems
  about `Run` hold for every scheduler.
* Go strings are lists of characters where their contents are inspected.
-/

namespace Iamaigo

/-! ## Data model (`main.go`) -/

/-- Event struct. -/
structure Event where
  Name : String
  Handled : Bool
deriving DecidableEq

/-- The `bot` section of the configuration file. -/
structure BotSection where
  Plugins : List String
  PluginDirs : List String
  Adapters : List String
deriving DecidableEq

/-- The `log` section of the configuration file. -/
structure LogSection where
  Level : String
  VerboseException : Bool
deriving DecidableEq

/-- Config struct. -/
structure Config where
  Bot : BotSection
  Log : LogSection
deriving DecidableEq

/-- The argument of a call of `Print` (`terminalcolor.LogWithColorAndStyle`); a field left
out of a Go struct literal is the empty slice or the empty string. -/
structure LogWithColorAndStyle where
  Text : List String
  Color : List String := []
  Style : List String := []
  Format : String := ""
deriving DecidableEq

/-- Adapter interface. -/
structure Adapter (W : Type) where
  Start : W → Option String × W
  Stop : W → Option String × W
  Name : String

/-- Plugin interface. -/
structure Plugin (W : Type) where
  HandleEvent : Event → W → Option String × W
  Name : String

/-- Bot struct.  `shouldExit` records whether the channel of that name is closed; the
mutex `mu` has no field of its own, its operations are recorded as actions. -/
structure Bot (W : Type) where
  config : Config
  shouldExit : Bool
  adapters : List (Adapter W)
  plugins : List (Plugin W)

/-- What an operation does, in program order. -/
inductive Act (W : Type) where
  | lock
  | unlock
  | readAdapters
  | writeAdapters
  | readPlugins
  | writePlugins
  | readConfig
  | callHandleEvent (p : Plugin W) (e : Event)
  | callStart (a : Adapter W)
  | callStop (a : Adapter W)
  | goStart (a : Adapter W)
  | goListener
  | notify
  | sleep
  | glob (pattern : String)
  | openFile (file : String)
  | print (l : LogWithColorAndStyle)

/-- The result of an operation that returns a value. -/
structure Ret (W : Type) (α : Type) where
  value : α
  bot : Bot W
  world : W
  trace : List (Act W)

/-- The result of an operation that returns nothing. -/
structure Done (W : Type) where
  bot : Bot W
  world : W
  trace : List (Act W)

variable {W : Type}

/-! ## Registry operations -/

/-- AddAdapter adds an adapter to the bot. -/
def Bot.AddAdapter (b : Bot W) (adapter : Adapter W) (w : W) : Done W :=
  { bot := { b with adapters := b.adapters ++ [adapter] },
    world := w,
    trace := [.lock, .readAdapters, .writeAdapters, .unlock] }

/-- AddPlugin adds a plugin to the bot. -/
def Bot.AddPlugin (b : Bot W) (plugin : Plugin W) (w : W) : Done W :=
  { bot := { b with plugins := b.plugins ++ [plugin] },
    world := w,
    trace := [.lock, .readPlugins, .writePlugins, .unlock] }

/-- The log line of a plugin whose `HandleEvent` returned an error. -/
def handleErrorLog (name err : String) : LogWithColorAndStyle :=
  { Text := [name, err],
    Color := ["error"],
    Format := "Error handling event with plugin {text[0]}: {text[1]}" }

/-- The loop `for _, plugin := range b.plugins` of `HandleEvent`. -/
def dispatchLoop (event : Event) : List (Plugin W) → W → W × List (Act W)
  | [], w => (w, [])
  | plugin :: rest, w =>
    let r := plugin.HandleEvent event w
    let logged : List (Act W) :=
      match r.1 with
      | none => []
      | some err => [.print (handleErrorLog plugin.Name err)]
    let k := dispatchLoop event rest r.2
    (k.1, Act.callHandleEvent plugin event :: (logged ++ k.2))

/-- HandleEvent processes an event using plugins. -/
def Bot.HandleEvent (b : Bot W) (event : Event) (w : W) : Done W :=
  let k := dispatchLoop event b.plugins w
  { bot := b,
    world := k.1,
    trace := [.lock, .readPlugins] ++ k.2 ++ [.unlock] }

/-- ReloadPlugins reloads all plugins. -/
def Bot.ReloadPlugins (b : Bot W) (w : W) : Done W :=
  { bot := { b with plugins := [] },
    world := w,
    trace := [.lock, .writePlugins, .unlock] }

/-- The loop of `GetAdapter`: the first adapter whose name is `name`. -/
def scanAdapters (name : String) : List (Adapter W) → Except String (Adapter W)
  | [] => .error "adapter not found"
  | adapter :: rest => if adapter.Name = name then .ok adapter else scanAdapters name rest

/-- The loop of `GetPlugin`: the first plugin whose name is `name`. -/
def scanPlugins (name : String) : List (Plugin W) → Except String (Plugin W)
  | [] => .error "plugin not found"
  | plugin :: rest => if plugin.Name = name then .ok plugin else scanPlugins name rest

/-- GetAdapter retrieves an adapter by name. -/
def Bot.GetAdapter (b : Bot W) (name : String) (w : W) : Ret W (Except String (Adapter W)) :=
  { value := scanAdapters name b.adapters,
    bot := b,
    world := w,
    trace := [.lock, .readAdapters, .unlock] }

/-- GetPlugin retrieves a plugin by name. -/
def Bot.GetPlugin (b : Bot W) (name : String) (w : W) : Ret W (Except String (Plugin W)) :=
  { value := scanPlugins name b.plugins,
    bot := b,
    world := w,
    trace := [.lock, .readPlugins, .unlock] }

/-- The plugin calls of a trace, in order. -/
def pluginCalls : List (Act W) → List (Plugin W × Event)
  | [] => []
  | .callHandleEvent p e :: rest => (p, e) :: pluginCalls rest
  | _ :: rest => pluginCalls rest

/-- The adapter starts launched by a trace, in order. -/
def launchedStarts : List (Act W) → List (Adapter W)
  | [] => []
  | .goStart a :: rest => a :: launchedStarts rest
  | _ :: rest => launchedStarts rest

/-- The `Start` calls of a trace, in order. -/
def startCalls : List (Act W) → List (Adapter W)
  | [] => []
  | .callStart a :: rest => a :: startCalls rest
  | _ :: rest => startCalls rest

/-- The `Stop` calls of a trace, in order. -/
def stopCalls : List (Act W) → List (Adapter W)
  | [] => []
  | .callStop a :: rest => a :: stopCalls rest
  | _ :: rest => stopCalls rest

/-- The files a trace tried to open, in order. -/
def openedFiles : List (Act W) → List String
  | [] => []
  | .openFile f :: rest => f :: openedFiles rest
  | _ :: rest => openedFiles rest

/-- The log lines of a trace, in order. -/
def printed : List (Act W) → List LogWithColorAndStyle
  | [] => []
  | .print l :: rest => l :: printed rest
  | _ :: rest => printed rest

/-! ## The lifecycle driver `Run` -/

/-- The colours `showBotState` picks for the log level; `lower` is `strings.ToLower`. -/
def levelColors (lower : String → String) (level : String) : List String :=
  if lower level = "info" then ["info", "green"]
  else if lower level = "warning" then ["info", "yellow"]
  else if lower level = "error" then ["info", "red"]
  else ["info"]

/-- The function `showBotState`: three log lines, read from the configuration and from the
two registries. -/
def Bot.showBotState (b : Bot W) (lower : String → String) : List (Act W) :=
  [ .readConfig,
    .print { Text := [b.config.Log.Level],
             Color := levelColors lower b.config.Log.Level,
             Style := ["", "bold"],
             Format := "Bot is running with log level {text[0]}" },
    .readAdapters,
    .print { Text := [toString b.adapters.length],
             Color := ["info"],
             Format := "Adapters: {text[0]}" },
    .readPlugins,
    .print { Text := [toString b.plugins.length],
             Color := ["info"],
             Format := "Plugins: {text[0]}" } ]

/-- The log line of an adapter whose `Start` returned an error. -/
def startErrorLog (name err : String) : LogWithColorAndStyle :=
  { Text := [name, err],
    Color := ["error"],
    Format := "Error starting adapter {text[0]}: {text[1]}" }

/-- The log line of an adapter whose `Stop` returned an error. -/
def stopErrorLog (name err : String) : LogWithColorAndStyle :=
  { Text := [name, err],
    Color := ["error"],
    Format := "Error stopping adapter {text[0]}: {text[1]}" }

/-- The body of the goroutine `go func(a Adapter) { ... }(adapter)` that `Run` launches for
one adapter, run from the world `w`. -/
def startTask (a : Adapter W) (w : W) : W × List (Act W) :=
  let r := a.Start w
  (r.2, Act.callStart a ::
    (match r.1 with
     | none => []
     | some err => [.print (startErrorLog a.Name err)]))

/-- The goroutines of `Run` between two steps of its main goroutine: the `Start`
goroutines launched and not yet run, the world, and what was done. -/
structure Threads (W : Type) where
  pending : List (Adapter W)
  world : W
  trace : List (Act W)

/-- What the scheduler does at a point where the main goroutine of `Run` can be
preempted: for each number `i` of the list in turn, the `Start` goroutine at position `i`
of the pending ones (if there is one) runs to its end. -/
def runPicked : List Nat → List (Adapter W) → W → Threads W
  | [], pending, w => { pending := pending, world := w, trace := [] }
  | i :: picks, pending, w =>
    match pending[i]? with
    | none => runPicked picks pending w
    | some a =>
      let r := startTask a w
      let k := runPicked picks (pending.eraseIdx i) r.1
      { k with trace := r.2 ++ k.trace }

/-- The first loop of `Run`: one goroutine per adapter, launched in registry order.  After
each launch the scheduler takes its turn; `sched t` is what it picks at the point
number `t`. -/
def startLoop (sched : Nat → List Nat) :
    List (Adapter W) → Nat → List (Adapter W) → W → Threads W
  | [], _, pending, w => { pending := pending, world := w, trace := [] }
  | adapter :: rest, t, pending, w =>
    let y := runPicked (sched t) (pending ++ [adapter]) w
    let k := startLoop sched rest (t + 1) y.pending y.world
    { k with trace := Act.goStart adapter :: (y.trace ++ k.trace) }

/-- The loop over the adapters in the shutdown branch of `Run`; the scheduler takes its
turn before each call of `Stop`. -/
def stopLoop (sched : Nat → List Nat) :
    List (Adapter W) → Nat → List (Adapter W) → W → Threads W
  | [], _, pending, w => { pending := pending, world := w, trace := [] }
  | adapter :: rest, t, pending, w =>
    let y := runPicked (sched t) pending w
    let r := adapter.Stop y.world
    let logged : List (Act W) :=
      match r.1 with
      | none => []
      | some err => [.print (stopErrorLog adapter.Name err)]
    let k := stopLoop sched rest (t + 1) y.pending r.2
    { k with trace := y.trace ++ (Act.callStop adapter :: (logged ++ k.trace)) }

/-- The log line of the shutdown branch. -/
def exitingLog : LogWithColorAndStyle :=
  { Text := ["Exiting..."],
    Style := ["", "bold"],
    Color := ["warning"],
    Format := "{text[0]}" }

/-- The result of `Run`: the bot, the world and the trace, and the `Start` goroutines
that have not run when `Run` returns. -/
structure Ran (W : Type) where
  bot : Bot W
  world : W
  trace : List (Act W)
  pending : List (Adapter W)

/-- The loop `for { select { case <-b.shouldExit: ...; default: time.Sleep(...) } }`.
`closes k` says that the listener goroutine closed the channel before the poll number `k`;
`closed` is the state of the channel before that; the scheduler takes its turn before
each poll, `t` is the number of that point.  `none`: the fuel ran out while the channel
was still open. -/
def pollLoop (b : Bot W) (sched : Nat → List Nat) (closes : Nat → Bool) :
    Nat → Nat → Nat → Bool → List (Adapter W) → W → Option (Ran W)
  | 0, _, _, _, _, _ => none
  | fuel + 1, k, t, closed, pending, w =>
    let y := runPicked (sched t) pending w
    if closed || closes k then
      let s := stopLoop sched b.adapters (t + 1) y.pending y.world
      some { bot := { b with shouldExit := true },
             world := s.world,
             trace := y.trace ++ ([.print exitingLog, .readAdapters] ++ s.trace),
             pending := s.pending }
    else
      match pollLoop b sched closes fuel (k + 1) (t + 1) false y.pending y.world with
      | none => none
      | some d => some { d with trace := y.trace ++ (Act.sleep :: d.trace) }

/-- Run the Bot.  `sched` is the scheduler: which of the launched `Start` goroutines run
at each point where the main goroutine can be preempted (after each launch, before each
poll, before each `Stop`). -/
def Bot.Run (b : Bot W) (lower : String → String) (sched : Nat → List Nat)
    (closes : Nat → Bool) (fuel : Nat) (w : W) : Option (Ran W) :=
  let s := startLoop sched b.adapters 0 [] w
  match pollLoop b sched closes fuel 0 b.adapters.length b.shouldExit s.pending s.world with
  | none => none
  | some d =>
    some { d with
      trace := [.notify] ++ b.showBotState lower ++ [.goListener, .readAdapters]
                 ++ s.trace ++ d.trace }

/-- The world a trace leads to from `w` when every call in it is the call of the
adapter's or plugin's own method in the world reached so far, and every call that returns
an error is followed by its log line; `none` when a failing call lacks its log line. -/
def replay : List (Act W) → W → Option W
  | [], w => some w
  | .callHandleEvent p e :: rest, w =>
    match (p.HandleEvent e w).1 with
    | none => replay rest (p.HandleEvent e w).2
    | some err =>
      match rest with
      | .print l :: rest1 =>
        if l = handleErrorLog p.Name err then replay rest1 (p.HandleEvent e w).2 else none
      | _ => none
  | .callStart a :: rest, w =>
    match (a.Start w).1 with
    | none => replay rest (a.Start w).2
    | some err =>
      match rest with
      | .print l :: rest1 =>
        if l = startErrorLog a.Name err then replay rest1 (a.Start w).2 else none
      | _ => none
  | .callStop a :: rest, w =>
    match (a.Stop w).1 with
    | none => replay rest (a.Stop w).2
    | some err =>
      match rest with
      | .print l :: rest1 =>
        if l = stopErrorLog a.Name err then replay rest1 (a.Stop w).2 else none
      | _ => none
  | _ :: rest, w => replay rest w

/-! ## The module loader -/

/-- The runtime services `LoadPluginsFromDir` calls: `filepath.Join`, `filepath.Glob`,
`plugin.Open`, `(*plugin.Plugin).Lookup` and the type assertion `symPlugin.(Plugin)`, over
a type `H` of opened modules and a type `S` of symbols. -/
structure Loader (W H S : Type) where
  Join : String → String → String
  Glob : String → Except String (List String)
  Open : String → Except String H
  Lookup : H → String → Except String S
  asPlugin : S → Option (Plugin W)

variable {H S : Type}

/-- The body of the loop of `LoadPluginsFromDir` up to the call of `AddPlugin`: the plugin
of one file, or the error the function returns. -/
def loadFile (L : Loader W H S) (file : String) : Except String (Plugin W) :=
  match L.Open file with
  | .error err => .error err
  | .ok p =>
    match L.Lookup p "Plugin" with
    | .error err => .error err
    | .ok symPlugin =>
      match L.asPlugin symPlugin with
      | none => .error "unexpected type from module symbol"
      | some plugin => .ok plugin

/-- The loop `for _, file := range files` of `LoadPluginsFromDir`. -/
def loadLoop (L : Loader W H S) : List String → Bot W → W → Ret W (Option String)
  | [], b, w => { value := none, bot := b, world := w, trace := [] }
  | file :: rest, b, w =>
    match loadFile L file with
    | .error err => { value := some err, bot := b, world := w, trace := [.openFile file] }
    | .ok plugin =>
      let d := b.AddPlugin plugin w
      let k := loadLoop L rest d.bot d.world
      { k with trace := Act.openFile file :: (d.trace ++ k.trace) }

/-- LoadPluginsFromDir loads plugins from a directory. -/
def Bot.LoadPluginsFromDir (b : Bot W) (L : Loader W H S) (dir : String) (w : W) :
    Ret W (Option String) :=
  match L.Glob (L.Join dir "*.so") with
  | .error err =>
    { value := some err, bot := b, world := w, trace := [.glob (L.Join dir "*.so")] }
  | .ok files =>
    let k := loadLoop L files b w
    { k with trace := Act.glob (L.Join dir "*.so") :: k.trace }

/-! ## Construction -/

/-- The function `loadConfig`: the configuration read from the file, or the error.
`decode` stands for opening the file and decoding its JSON. -/
def loadConfig (decode : String → Except String Config) (configFile : String) :
    Except String Config :=
  if configFile = "" then .error "config file not specified" else decode configFile

/-- NewBot creates a new Bot instance: an open `shouldExit`, empty registries, and the
configuration of the file; the error of `loadConfig` when that fails. -/
def NewBot (decode : String → Except String Config) (configFile : String) :
    Except String (Bot W) :=
  match loadConfig decode configFile with
  | .error err => .error err
  | .ok config => .ok { config := config, shouldExit := false, adapters := [], plugins := [] }

/-! ## Lock discipline -/

/-- Whether the action reads or writes one of the two registries. -/
def Act.touchesRegistry : Act W → Bool
  | .readAdapters => true
  | .writeAdapters => true
  | .readPlugins => true
  | .writePlugins => true
  | _ => false

/-- The number of registry accesses of the trace that happen while the mutex is free,
starting with the mutex held or not as the first argument says. -/
def unlockedAccesses : Bool → List (Act W) → Nat
  | _, [] => 0
  | _, .lock :: rest => unlockedAccesses true rest
  | _, .unlock :: rest => unlockedAccesses false rest
  | held, a :: rest =>
    (if a.touchesRegistry && !held then 1 else 0) + unlockedAccesses held rest

/-- Whether every registry access of the trace of an operation, entered with the mutex
free, happens while the mutex is held. -/
def guarded (t : List (Act W)) : Bool := unlockedAccesses false t == 0

/-! ## The shutdown channel -/

/-- One entry of `Run` as the shutdown channel sees it: the channel `sigs` (buffer of one
signal) that `signal.Notify` registered, and the goroutine that receives from it once and
then closes `b.shouldExit`.  `pending`: a signal is in the buffer; `waiting`: the
goroutine has not received yet. -/
structure Listener where
  pending : Bool
  waiting : Bool
deriving DecidableEq

/-- The shutdown channel and what acts on it.  `closed`: `shouldExit` is closed;
`closeCalls`: how often `close(b.shouldExit)` was executed; `closedTwice`: one of them hit
the closed channel (Go panics with "close of closed channel"); `exited`: a signal came
while no channel was registered for it and ended the process; `listeners`: one entry per
entry of `Run`, in order. -/
structure Shutdown where
  closed : Bool
  closeCalls : Nat
  closedTwice : Bool
  exited : Bool
  listeners : List Listener
deriving DecidableEq

/-- What can happen to the shutdown channel: `Run` is entered (the channel `sigs` is made
and registered, the listener goroutine is launched); an interrupt or terminate signal is
delivered; the listener number `i` is scheduled. -/
inductive Step where
  | enterRun
  | signal
  | receive (i : Nat)
deriving DecidableEq

/-- Whether the listener number `i` can take a signal from its channel. -/
def listenerReady (ls : List Listener) (i : Nat) : Bool :=
  match ls[i]? with
  | some l => l.waiting && l.pending
  | none => false

/-- One step.  Nothing happens any more once the process has ended (by an unhandled
signal, or by the panic of a second close).  A signal delivered before any `signal.Notify`
ends the process; otherwise it is put into every registered channel (a channel whose
buffer is full keeps its one signal).  A listener that is scheduled with a signal in its
channel takes it and executes `close(b.shouldExit)`; scheduled otherwise it stays blocked
(or has finished) and nothing changes. -/
def Shutdown.step (s : Shutdown) (st : Step) : Shutdown :=
  if s.exited || s.closedTwice then s
  else
    match st with
    | .enterRun =>
      { s with listeners := s.listeners ++ [{ pending := false, waiting := true }] }
    | .signal =>
      if s.listeners.isEmpty then { s with exited := true }
      else { s with listeners := s.listeners.map (fun l => { l with pending := true }) }
    | .receive i =>
      if listenerReady s.listeners i then
        { s with
          closed := true,
          closeCalls := s.closeCalls + 1,
          closedTwice := s.closed,
          listeners := s.listeners.set i { pending := false, waiting := false } }
      else s

/-- A sequence of steps. -/
def Shutdown.exec (s : Shutdown) (steps : List Step) : Shutdown :=
  steps.foldl Shutdown.step s

/-- How often the steps enter `Run`. -/
def runEntries : List Step → Nat
  | [] => 0
  | .enterRun :: rest => runEntries rest + 1
  | _ :: rest => runEntries rest

/-- The open channel of a running process, before any `Run`. -/
def Shutdown.fresh : Shutdown :=
  { closed := false, closeCalls := 0, closedTwice := false, exited := false, listeners := [] }

/-- A process that a signal ended before `Run` was entered. -/
def Shutdown.ended : Shutdown :=
  { Shutdown.fresh with exited := true }

/-- The shutdown channel of a bot on which `Run` has not been entered, in a running
process. -/
def Shutdown.ofBot (b : Bot W) : Shutdown :=
  { closed := b.shouldExit, closeCalls := 0, closedTwice := false, exited := false,
    listeners := [] }

/-- The state of a bot on which `Run` was entered once, with the listener `l`: no second
close, and `shouldExit` closed by exactly one `close` if the listener has received, by
none if it is still waiting. -/
def Shutdown.singleRun (s : Shutdown) : Prop :=
  ∃ l, s.listeners = [l] ∧ s.closedTwice = false ∧ s.exited = false ∧
    ((l.waiting = true ∧ s.closed = false ∧ s.closeCalls = 0) ∨
      (l.waiting = false ∧ s.closed = true ∧ s.closeCalls = 1))

/-- A single-run state whose listener waits, with a signal in its channel or not as
`pending` says, the channel still open. -/
def Shutdown.listening (pending : Bool) (s : Shutdown) : Prop :=
  s = { closed := false, closeCalls := 0, closedTwice := false, exited := false,
        listeners := [{ pending := pending, waiting := true }] }

/-- A single-run state whose listener has received, or has a signal in its channel. -/
def Shutdown.armed (s : Shutdown) : Prop :=
  ∃ l, s.listeners = [l] ∧ s.closedTwice = false ∧ s.exited = false ∧
    ((l.waiting = true ∧ l.pending = true ∧ s.closed = false ∧ s.closeCalls = 0) ∨
      (l.waiting = false ∧ s.closed = true ∧ s.closeCalls = 1))

/-- A single-run state whose listener has received. -/
def Shutdown.fired (s : Shutdown) : Prop :=
  ∃ l, s.listeners = [l] ∧ s.closedTwice = false ∧ s.exited = false ∧
    l.waiting = false ∧ s.closed = true ∧ s.closeCalls = 1

/-! ## The message of `Print` (`terminalcolor/color.go`) -/

/-- The placeholder `fmt.Sprintf("{text[%d]}", i)`: the index in decimal between the two
fixed parts. -/
def placeholder (i : Nat) : List Char :=
  "\x7btext[".data ++ (Nat.toDigits 10 i ++ "]\x7d".data)

/-- The scan of `strings.Replace` for a non-empty `old`: the leftmost occurrence of
`old` is replaced by `new` and the scan resumes after it.  The first argument counts the
characters of a replaced occurrence still to be skipped. -/
def replaceScan (old new : List Char) : Nat → List Char → List Char
  | _, [] => []
  | skip + 1, _ :: cs => replaceScan old new skip cs
  | 0, c :: cs =>
    if old.isPrefixOf (c :: cs) then new ++ replaceScan old new (old.length - 1) cs
    else c :: replaceScan old new 0 cs

/-- The function `strings.ReplaceAll(s, old, new)`: `s` itself when `old == new`; for an
empty `old`, `new` at the start and after every character; otherwise every
non-overlapping occurrence of `old`, from the left, replaced by `new`. -/
def ReplaceAll (s old new : List Char) : List Char :=
  if old = new then s
  else if old = [] then new ++ s.flatMap (fun c => c :: new)
  else replaceScan old new 0 s

/-- The loop `for i := range l.Text` of `Print`, for `n` texts: the placeholders of the
indices `0, ..., n - 1` are replaced, one index after the other, by `%s`. -/
def markPlaceholders (n : Nat) (output : List Char) : List Char :=
  (List.range n).foldl (fun out i => ReplaceAll out (placeholder i) "%s".data) output

/-- The tail `%!(EXTRA string=a, string=b)` that `fmt.Sprintf` appends for string operands
no verb has used; nothing when there is none. -/
def extraOperands : List (List Char) → List Char
  | [] => []
  | a :: rest =>
    "%!(EXTRA ".data ++
      (", ".data.intercalate ((a :: rest).map (fun x => "string=".data ++ x)) ++ ")".data)

/-- The function `fmt.Sprintf(format, args...)` where every operand is a string, on the
formats whose verbs are `%s` and `%%` without flags: the operand number `argNum` is
printed for a `%s` and the next one becomes current, `%!s(MISSING)` is printed when the
operands are used up, a `%` at the very end prints `%!(NOVERB)`, and the unused operands
follow at the end.  `none` for any other verb or flag: those are outside this model. -/
def sprintfFrom (args : List (List Char)) : Nat → List Char → Option (List Char)
  | argNum, [] => some (extraOperands (args.drop argNum))
  | argNum, c :: rest =>
    if c = '%' then
      match rest with
      | [] => some ("%!(NOVERB)".data ++ extraOperands (args.drop argNum))
      | verb :: rest1 =>
        if verb = 's' then
          match args[argNum]? with
          | some a => (sprintfFrom args (argNum + 1) rest1).map (fun out => a ++ out)
          | none => (sprintfFrom args argNum rest1).map (fun out => "%!s(MISSING)".data ++ out)
        else if verb = '%' then
          (sprintfFrom args argNum rest1).map (fun out => '%' :: out)
        else none
    else (sprintfFrom args argNum rest).map (fun out => c :: out)

/-- The call `fmt.Sprintf(format, toInterfaceSlice(texts)...)`. -/
def Sprintf (format : List Char) (texts : List (List Char)) : Option (List Char) :=
  sprintfFrom texts 0 format

/-- The value of `output` that `Print` hands to `applyColorAndStyle`: the texts joined when
`Format` is empty, else `Format` with the placeholders replaced by `%s` and formatted with
the texts as operands.  (`fmt.Sprintf` does not panic on string operands, so the deferred
`recover` never replaces the output.) -/
def LogWithColorAndStyle.message (l : LogWithColorAndStyle) : Option String :=
  if l.Format = "" then some (String.join l.Text)
  else
    (Sprintf (markPlaceholders l.Text.length l.Format.data) (l.Text.map String.data)).map
      String.mk

/-- The least index `i < n` whose placeholder `{text[i]}` starts the string, if any. -/
def placeholderAt (n : Nat) (s : List Char) : Option Nat :=
  (List.range n).find? (fun i => (placeholder i).isPrefixOf s)

/-- Claim side: the string read from the left, every occurrence of a placeholder
`{text[i]}` with `i < len(texts)` replaced by `texts[i]`; the first argument counts the
characters of a replaced placeholder still to be skipped. -/
def substituteScan (texts : List (List Char)) : Nat → List Char → List Char
  | _, [] => []
  | skip + 1, _ :: cs => substituteScan texts skip cs
  | 0, c :: cs =>
    match placeholderAt texts.length (c :: cs) with
    | some i => texts.getD i [] ++ substituteScan texts ((placeholder i).length - 1) cs
    | none => c :: substituteScan texts 0 cs

/-- Claim side: `Format` with every occurrence of each placeholder `{text[i]}`,
`i < len(Text)`, replaced by `Text[i]`. -/
def LogWithColorAndStyle.substituted (l : LogWithColorAndStyle) : String :=
  String.mk (substituteScan (l.Text.map String.data) 0 l.Format.data)

/-- The format `s0 {text[i]} s1 {text[i+1]} s2 ...` with the literal pieces `s0 :: segs`,
each placeholder rendered by `hole`. -/
def weave (hole : Nat → List Char) : Nat → List Char → List (List Char) → List Char
  | _, s0, [] => s0
  | i, s0, seg :: rest => s0 ++ (hole i ++ weave hole (i + 1) seg rest)

/-- The rendering of the placeholder `j` after the rounds `0, ..., k - 1` of the loop of
`Print`: `%s` when its round is over, the placeholder itself before. -/
def markedHole (k j : Nat) : List Char :=
  if j < k then ['%', 's'] else placeholder j

/-- The number a list of decimal digits stands for. -/
def decimalValue (cs : List Char) : Nat :=
  cs.foldl (fun acc c => 10 * acc + (c.toNat - 48)) 0

/-! ## Concrete inputs -/

/-- A configuration. -/
def demoConfig : Config :=
  { Bot := { Plugins := [], PluginDirs := ["./plugins"], Adapters := [] },
    Log := { Level := "info", VerboseException := false } }

/-- An adapter whose `Start` fails. -/
def adapterX : Adapter Unit :=
  { Start := fun w => (some "connection refused", w),
    Stop := fun w => (none, w),
    Name := "X" }

/-- An adapter whose `Start` succeeds and whose `Stop` fails. -/
def adapterY : Adapter Unit :=
  { Start := fun w => (none, w),
    Stop := fun w => (some "timeout", w),
    Name := "Y" }

/-- A bot with the adapters `X` and `Y`. -/
def botXY : Bot Unit :=
  { config := demoConfig, shouldExit := false, adapters := [adapterX, adapterY], plugins := [] }

/-- The bot `NewBot` returns for `demoConfig`. -/
def freshBot : Bot Unit :=
  { config := demoConfig, shouldExit := false, adapters := [], plugins := [] }

/-- A plugin that handles every event without error. -/
def pluginOf (name : String) : Plugin Unit :=
  { HandleEvent := fun _ w => (none, w), Name := name }

/-- A plugin directory with three modules, the second of which does not open. -/
def demoLoader : Loader Unit String String :=
  { Join := fun dir pattern => dir ++ "/" ++ pattern,
    Glob := fun _ => .ok ["a.so", "b.so", "c.so"],
    Open := fun file => if file = "b.so" then .error "not a plugin" else .ok file,
    Lookup := fun module _ => .ok module,
    asPlugin := fun symbol => some (pluginOf symbol) }

/-- An adapter that writes its calls into a journal; its `Start` and its `Stop` fail. -/
def journalX : Adapter (List String) :=
  { Start := fun w => (some "connection refused", w ++ ["X.Start"]),
    Stop := fun w => (some "busy", w ++ ["X.Stop"]),
    Name := "X" }

/-- An adapter that writes its calls into a journal; its `Start` and its `Stop` succeed. -/
def journalY : Adapter (List String) :=
  { Start := fun w => (none, w ++ ["Y.Start"]),
    Stop := fun w => (none, w ++ ["Y.Stop"]),
    Name := "Y" }

/-- A bot with the journal adapters `X` and `Y`, in that order. -/
def botJournal : Bot (List String) :=
  { config := demoConfig, shouldExit := false, adapters := [journalX, journalY],
    plugins := [] }

/-- A plugin that writes its calls, with the name of the event, into a journal, and
fails. -/
def journalP1 : Plugin (List String) :=
  { HandleEvent := fun e w => (some "no handler", w ++ ["P1:" ++ e.Name]), Name := "P1" }

/-- A plugin that writes its calls, with the name of the event, into a journal. -/
def journalP2 : Plugin (List String) :=
  { HandleEvent := fun e w => (none, w ++ ["P2:" ++ e.Name]), Name := "P2" }

/-- A bot with the journal plugins `P1` and `P2`, in that order. -/
def botPing : Bot (List String) :=
  { config := demoConfig, shouldExit := false, adapters := [],
    plugins := [journalP1, journalP2] }

/-- A scheduler that runs the `Start` goroutines of `Y` and then of `X` before the second
poll, and nothing elsewhere. -/
def lateSchedule (t : Nat) : List Nat :=
  if t = 3 then [1, 0] else []

/-- The log line of `loadConfig`. -/
def loadingLog : LogWithColorAndStyle :=
  { Text := ["config.json"], Color := ["info", "reset"], Format := "Loading config file {text[0]}" }

/-- A log line whose placeholders are not in index order. -/
def swappedLog : LogWithColorAndStyle :=
  { Text := ["a", "b"], Format := "{text[1]} {text[0]}" }

/-- A log line that uses one placeholder twice. -/
def repeatedLog : LogWithColorAndStyle :=
  { Text := ["a"], Format := "{text[0]}{text[0]}" }

/-- A log line that leaves a text without placeholder. -/
def unreferencedLog : LogWithColorAndStyle :=
  { Text := ["a", "b"], Format := "hello {text[0]}" }

/-! # Theorems -/

section Projections

variable {W : Type}

theorem pluginCalls_append (s t : List (Act W)) :
    pluginCalls (s ++ t) = pluginCalls s ++ pluginCalls t := by
  induction s with
  | nil => rfl
  | cons a s ih => cases a <;> simp [pluginCalls, ih]

theorem stopCalls_append (s t : List (Act W)) :
    stopCalls (s ++ t) = stopCalls s ++ stopCalls t := by
  induction s with
  | nil => rfl
  | cons a s ih => cases a <;> simp [stopCalls, ih]

theorem launchedStarts_append (s t : List (Act W)) :
    launchedStarts (s ++ t) = launchedStarts s ++ launchedStarts t := by
  induction s with
  | nil => rfl
  | cons a s ih => cases a <;> simp [launchedStarts, ih]

theorem startCalls_append (s t : List (Act W)) :
    startCalls (s ++ t) = startCalls s ++ startCalls t := by
  induction s with
  | nil => rfl
  | cons a s ih => cases a <;> simp [startCalls, ih]

theorem openedFiles_append (s t : List (Act W)) :
    openedFiles (s ++ t) = openedFiles s ++ openedFiles t := by
  induction s with
  | nil => rfl
  | cons a s ih => cases a <;> simp [openedFiles, ih]

end Projections

section Dispatch

variable {W : Type}

theorem pluginCalls_dispatchLoop (e : Event) (ps : List (Plugin W)) (w : W) :
    pluginCalls (dispatchLoop e ps w).2 = ps.map (fun p => (p, e)) := by
  induction ps generalizing w with
  | nil => rfl
  | cons p ps ih =>
    simp only [dispatchLoop, pluginCalls, pluginCalls_append, ih, List.map_cons]
    cases (p.HandleEvent e w).1 <;> simp [pluginCalls]

theorem dispatchLoop_world (e : Event) (ps : List (Plugin W)) (w : W) :
    (dispatchLoop e ps w).1 = ps.foldl (fun w p => (p.HandleEvent e w).2) w := by
  induction ps generalizing w with
  | nil => rfl
  | cons p ps ih => simp only [dispatchLoop, List.foldl_cons, ih]

theorem dispatchLoop_trace (e : Event) (ps : List (Plugin W)) (w : W) :
    (dispatchLoop e ps w).2 =
      (ps.zip (ps.scanl (fun w p => (p.HandleEvent e w).2) w)).flatMap (fun pw =>
        Act.callHandleEvent pw.1 e ::
          (match (pw.1.HandleEvent e pw.2).1 with
           | none => []
           | some err => [Act.print (handleErrorLog pw.1.Name err)])) := by
  induction ps generalizing w with
  | nil => rfl
  | cons p ps ih =>
    simp only [dispatchLoop, List.scanl_cons, List.zip_cons_cons, List.flatMap_cons, ih]
    rfl

/-- C1: `HandleEvent(e)` calls `HandleEvent` of every registered plugin exactly once, in
registration order, each time with the event `e`, whatever the plugins return: the plugin
calls of its trace are the registry paired with `e`; the world it leaves is the entry world
folded through `HandleEvent(e)` of every plugin in registration order; between taking and
releasing the mutex its trace is, plugin by plugin, the call followed by the error log
line exactly when that call, made in the world the earlier plugins left, returned an
error; it has no error to return and leaves the bot (both registries, the configuration)
as it was. -/
theorem HandleEvent_calls_each_plugin_once (b : Bot W) (e : Event) (w : W) :
    pluginCalls (b.HandleEvent e w).trace = b.plugins.map (fun p => (p, e)) ∧
      (b.HandleEvent e w).world = b.plugins.foldl (fun w p => (p.HandleEvent e w).2) w ∧
      (b.HandleEvent e w).trace =
        [.lock, .readPlugins] ++
          (b.plugins.zip (b.plugins.scanl (fun w p => (p.HandleEvent e w).2) w)).flatMap
            (fun pw => Act.callHandleEvent pw.1 e ::
              (match (pw.1.HandleEvent e pw.2).1 with
               | none => []
               | some err => [Act.print (handleErrorLog pw.1.Name err)])) ++
          [.unlock] ∧
      (b.HandleEvent e w).bot = b := by
  refine ⟨?_, dispatchLoop_world e b.plugins w, ?_, rfl⟩
  · simp [Bot.HandleEvent, pluginCalls_append, pluginCalls, pluginCalls_dispatchLoop]
  · simp only [Bot.HandleEvent, dispatchLoop_trace]

/-- The scenario of the plugins `P1` and `P2` and the event `ping`, where `P1` fails: `P2`
is still called, with the same event, and the failure of `P1` is logged. -/
theorem HandleEvent_ping_scenario :
    (botPing.HandleEvent { Name := "ping", Handled := false } []).world
        = ["P1:ping", "P2:ping"] ∧
      printed (botPing.HandleEvent { Name := "ping", Handled := false } []).trace
        = [handleErrorLog "P1" "no handler"] := by
  decide

end Dispatch

section Lookup

variable {W : Type}

theorem scanAdapters_ok_iff (name : String) (as : List (Adapter W)) (a : Adapter W) :
    scanAdapters name as = .ok a ↔
      ∃ pre post, as = pre ++ a :: post ∧ a.Name = name ∧ ∀ x ∈ pre, x.Name ≠ name := by
  induction as with
  | nil => simp [scanAdapters]
  | cons x as ih =>
    by_cases hx : x.Name = name
    · simp only [scanAdapters, hx, if_true]
      constructor
      · intro h
        injection h with h
        subst h
        exact ⟨[], as, rfl, hx, by simp⟩
      · rintro ⟨pre, post, hsplit, _, hpre⟩
        cases pre with
        | nil =>
          simp only [List.nil_append, List.cons.injEq] at hsplit
          rw [hsplit.1]
        | cons y pre =>
          simp only [List.cons_append, List.cons.injEq] at hsplit
          exact absurd (hsplit.1 ▸ hx) (hpre y (by simp))
    · simp only [scanAdapters, hx, if_false, ih]
      constructor
      · rintro ⟨pre, post, hsplit, ha, hpre⟩
        refine ⟨x :: pre, post, by simp [hsplit], ha, ?_⟩
        intro y hy
        rcases List.mem_cons.1 hy with rfl | hy
        · exact hx
        · exact hpre y hy
      · rintro ⟨pre, post, hsplit, ha, hpre⟩
        cases pre with
        | nil =>
          simp only [List.nil_append, List.cons.injEq] at hsplit
          exact absurd (hsplit.1 ▸ ha) hx
        | cons y pre =>
          simp only [List.cons_append, List.cons.injEq] at hsplit
          exact ⟨pre, post, hsplit.2, ha, fun z hz => hpre z (by simp [hz])⟩

theorem scanAdapters_error_iff (name : String) (as : List (Adapter W)) :
    scanAdapters name as = .error "adapter not found" ↔ ∀ x ∈ as, x.Name ≠ name := by
  induction as with
  | nil => simp [scanAdapters]
  | cons x as ih =>
    by_cases hx : x.Name = name
    · simp [scanAdapters, hx]
    · simp [scanAdapters, hx, ih]

theorem scanPlugins_ok_iff (name : String) (ps : List (Plugin W)) (p : Plugin W) :
    scanPlugins name ps = .ok p ↔
      ∃ pre post, ps = pre ++ p :: post ∧ p.Name = name ∧ ∀ x ∈ pre, x.Name ≠ name := by
  induction ps with
  | nil => simp [scanPlugins]
  | cons x ps ih =>
    by_cases hx : x.Name = name
    · simp only [scanPlugins, hx, if_true]
      constructor
      · intro h
        injection h with h
        subst h
        exact ⟨[], ps, rfl, hx, by simp⟩
      · rintro ⟨pre, post, hsplit, _, hpre⟩
        cases pre with
        | nil =>
          simp only [List.nil_append, List.cons.injEq] at hsplit
          rw [hsplit.1]
        | cons y pre =>
          simp only [List.cons_append, List.cons.injEq] at hsplit
          exact absurd (hsplit.1 ▸ hx) (hpre y (by simp))
    · simp only [scanPlugins, hx, if_false, ih]
      constructor
      · rintro ⟨pre, post, hsplit, hp, hpre⟩
        refine ⟨x :: pre, post, by simp [hsplit], hp, ?_⟩
        intro y hy
        rcases List.mem_cons.1 hy with rfl | hy
        · exact hx
        · exact hpre y hy
      · rintro ⟨pre, post, hsplit, hp, hpre⟩
        cases pre with
        | nil =>
          simp only [List.nil_append, List.cons.injEq] at hsplit
          exact absurd (hsplit.1 ▸ hp) hx
        | cons y pre =>
          simp only [List.cons_append, List.cons.injEq] at hsplit
          exact ⟨pre, post, hsplit.2, hp, fun z hz => hpre z (by simp [hz])⟩

theorem scanPlugins_error_iff (name : String) (ps : List (Plugin W)) :
    scanPlugins name ps = .error "plugin not found" ↔ ∀ x ∈ ps, x.Name ≠ name := by
  induction ps with
  | nil => simp [scanPlugins]
  | cons x ps ih =>
    by_cases hx : x.Name = name
    · simp [scanPlugins, hx]
    · simp [scanPlugins, hx, ih]

theorem scanAdapters_total (name : String) (as : List (Adapter W)) :
    (∃ a, scanAdapters name as = .ok a) ∨ scanAdapters name as = .error "adapter not found" := by
  induction as with
  | nil => right; rfl
  | cons x as ih =>
    by_cases hx : x.Name = name
    · left; exact ⟨x, by simp [scanAdapters, hx]⟩
    · simpa [scanAdapters, hx] using ih

theorem scanPlugins_total (name : String) (ps : List (Plugin W)) :
    (∃ p, scanPlugins name ps = .ok p) ∨ scanPlugins name ps = .error "plugin not found" := by
  induction ps with
  | nil => right; rfl
  | cons x ps ih =>
    by_cases hx : x.Name = name
    · left; exact ⟨x, by simp [scanPlugins, hx]⟩
    · simpa [scanPlugins, hx] using ih

/-- C2: `GetAdapter(name)` returns, with no error, an adapter `a` exactly when `a` is the
earliest-registered adapter whose name is `name` (the registry is `pre ++ a :: post`, no
entry of `pre` has that name); it returns the not-found error, and no adapter, exactly when
no registered adapter has that name; one of the two always happens; the bot is left as it
was.  The same holds of `GetPlugin(name)` and the plugin registry. -/
theorem GetAdapter_GetPlugin_first_match (b : Bot W) (name : String) (w : W) :
    ((∀ a, (b.GetAdapter name w).value = .ok a ↔
          ∃ pre post, b.adapters = pre ++ a :: post ∧ a.Name = name ∧
            ∀ x ∈ pre, x.Name ≠ name) ∧
      ((b.GetAdapter name w).value = .error "adapter not found" ↔
          ∀ x ∈ b.adapters, x.Name ≠ name) ∧
      ((∃ a, (b.GetAdapter name w).value = .ok a) ∨
          (b.GetAdapter name w).value = .error "adapter not found") ∧
      (b.GetAdapter name w).bot = b) ∧
    ((∀ p, (b.GetPlugin name w).value = .ok p ↔
          ∃ pre post, b.plugins = pre ++ p :: post ∧ p.Name = name ∧
            ∀ x ∈ pre, x.Name ≠ name) ∧
      ((b.GetPlugin name w).value = .error "plugin not found" ↔
          ∀ x ∈ b.plugins, x.Name ≠ name) ∧
      ((∃ p, (b.GetPlugin name w).value = .ok p) ∨
          (b.GetPlugin name w).value = .error "plugin not found") ∧
      (b.GetPlugin name w).bot = b) :=
  ⟨⟨fun a => scanAdapters_ok_iff name b.adapters a, scanAdapters_error_iff name b.adapters,
      scanAdapters_total name b.adapters, rfl⟩,
    ⟨fun p => scanPlugins_ok_iff name b.plugins p, scanPlugins_error_iff name b.plugins,
      scanPlugins_total name b.plugins, rfl⟩⟩

end Lookup

section Registry

variable {W : Type}

/-- C7: `AddAdapter(a)` has no error to return and makes no uniqueness check: for every bot
and every adapter the adapter registry afterwards is the previous one followed by `a` as
its last element, and the plugin registry, the configuration and the shutdown channel are
as before.  The same holds of `AddPlugin(p)` with the two registries exchanged. -/
theorem AddAdapter_AddPlugin_append_last (b : Bot W) (a : Adapter W) (p : Plugin W) (w : W) :
    ((b.AddAdapter a w).bot.adapters = b.adapters ++ [a] ∧
      (b.AddAdapter a w).bot.adapters.getLast? = some a ∧
      (b.AddAdapter a w).bot.plugins = b.plugins ∧
      (b.AddAdapter a w).bot.config = b.config ∧
      (b.AddAdapter a w).bot.shouldExit = b.shouldExit) ∧
    ((b.AddPlugin p w).bot.plugins = b.plugins ++ [p] ∧
      (b.AddPlugin p w).bot.plugins.getLast? = some p ∧
      (b.AddPlugin p w).bot.adapters = b.adapters ∧
      (b.AddPlugin p w).bot.config = b.config ∧
      (b.AddPlugin p w).bot.shouldExit = b.shouldExit) := by
  refine ⟨⟨rfl, ?_, rfl, rfl, rfl⟩, ⟨rfl, ?_, rfl, rfl, rfl⟩⟩
  · show (b.adapters ++ [a]).getLast? = some a
    exact List.getLast?_concat b.adapters
  · show (b.plugins ++ [p]).getLast? = some p
    exact List.getLast?_concat b.plugins

/-- C8: `ReloadPlugins()` leaves the plugin registry empty and the adapter registry and the
configuration unchanged: afterwards `GetPlugin(name)` returns the not-found error for every
name, `HandleEvent` calls no plugin, and `GetAdapter(name)` returns what it returned
before. -/
theorem ReloadPlugins_clears_plugins_only (b : Bot W) (w : W) :
    (b.ReloadPlugins w).bot.plugins = [] ∧
      (b.ReloadPlugins w).bot.adapters = b.adapters ∧
      (b.ReloadPlugins w).bot.config = b.config ∧
      (∀ name w1, ((b.ReloadPlugins w).bot.GetPlugin name w1).value
          = .error "plugin not found") ∧
      (∀ e w1, pluginCalls (((b.ReloadPlugins w).bot.HandleEvent e w1).trace) = []) ∧
      (∀ name w1 w2, ((b.ReloadPlugins w).bot.GetAdapter name w1).value
          = (b.GetAdapter name w2).value) := by
  refine ⟨rfl, rfl, rfl, fun _ _ => rfl, fun _ _ => rfl, fun _ _ _ => rfl⟩

end Registry

section Lifecycle

variable {W : Type}

theorem startCalls_startTask (a : Adapter W) (w : W) : startCalls (startTask a w).2 = [a] := by
  simp only [startTask, startCalls]
  cases (a.Start w).1 <;> simp [startCalls]

theorem stopCalls_startTask (a : Adapter W) (w : W) : stopCalls (startTask a w).2 = [] := by
  simp only [startTask, stopCalls]
  cases (a.Start w).1 <;> simp [stopCalls]

theorem launchedStarts_startTask (a : Adapter W) (w : W) :
    launchedStarts (startTask a w).2 = [] := by
  simp only [startTask, launchedStarts]
  cases (a.Start w).1 <;> simp [launchedStarts]

theorem replay_startTask (a : Adapter W) (w : W) (t : List (Act W)) :
    replay ((startTask a w).2 ++ t) w = replay t (startTask a w).1 := by
  simp only [startTask]
  cases h : (a.Start w).1 with
  | none => simp [replay, h]
  | some err => simp [replay, h]

theorem perm_eraseIdx {α : Type} :
    ∀ (l : List α) (i : Nat) (a : α), l[i]? = some a → (a :: l.eraseIdx i).Perm l
  | [], i, a, h => by simp at h
  | x :: l, 0, a, h => by
    simp only [List.getElem?_cons_zero, Option.some.injEq] at h
    subst h
    simp
  | x :: l, i + 1, a, h => by
    simp only [List.getElem?_cons_succ] at h
    have ih := perm_eraseIdx l i a h
    simp only [List.eraseIdx_cons_succ]
    exact (List.Perm.swap x a (l.eraseIdx i)).trans (ih.cons x)

theorem runPicked_projections (picks : List Nat) :
    ∀ (pending : List (Adapter W)) (w : W),
      launchedStarts (runPicked picks pending w).trace = [] ∧
        stopCalls (runPicked picks pending w).trace = [] ∧
        (startCalls (runPicked picks pending w).trace ++
          (runPicked picks pending w).pending).Perm pending := by
  induction picks with
  | nil => intro pending w; simp [runPicked, launchedStarts, stopCalls, startCalls]
  | cons i picks ih =>
    intro pending w
    simp only [runPicked]
    cases h : pending[i]? with
    | none => exact ih pending w
    | some a =>
      obtain ⟨h1, h2, h3⟩ := ih (pending.eraseIdx i) (startTask a w).1
      refine ⟨?_, ?_, ?_⟩
      · simp [launchedStarts_append, launchedStarts_startTask, h1]
      · simp [stopCalls_append, stopCalls_startTask, h2]
      · simp only [startCalls_append, startCalls_startTask, List.singleton_append,
          List.cons_append]
        exact (h3.cons a).trans (perm_eraseIdx pending i a h)

theorem replay_runPicked (picks : List Nat) :
    ∀ (pending : List (Adapter W)) (w : W) (t : List (Act W)),
      replay ((runPicked picks pending w).trace ++ t) w =
        replay t (runPicked picks pending w).world := by
  induction picks with
  | nil => intro pending w t; rfl
  | cons i picks ih =>
    intro pending w t
    simp only [runPicked]
    cases h : pending[i]? with
    | none => exact ih pending w t
    | some a =>
      simp only [List.append_assoc]
      rw [replay_startTask, ih]

theorem startLoop_projections (sched : Nat → List Nat) :
    ∀ (as : List (Adapter W)) (t : Nat) (pending : List (Adapter W)) (w : W),
      launchedStarts (startLoop sched as t pending w).trace = as ∧
        stopCalls (startLoop sched as t pending w).trace = [] ∧
        (startCalls (startLoop sched as t pending w).trace ++
          (startLoop sched as t pending w).pending).Perm (pending ++ as) := by
  intro as
  induction as with
  | nil => intro t pending w; simp [startLoop, launchedStarts, stopCalls, startCalls]
  | cons a as ih =>
    intro t pending w
    obtain ⟨y1, y2, y3⟩ := runPicked_projections (sched t) (pending ++ [a]) w
    obtain ⟨k1, k2, k3⟩ := ih (t + 1) (runPicked (sched t) (pending ++ [a]) w).pending
      (runPicked (sched t) (pending ++ [a]) w).world
    simp only [startLoop]
    refine ⟨?_, ?_, ?_⟩
    · simp [launchedStarts, launchedStarts_append, y1, k1]
    · simp [stopCalls, stopCalls_append, y2, k2]
    · simp only [startCalls, startCalls_append, List.append_assoc]
      have h1 := k3.append_left (startCalls (runPicked (sched t) (pending ++ [a]) w).trace)
      have h2 := y3.append_right as
      simp only [List.append_assoc] at h1 h2
      exact (h1.trans h2).trans (by simp)

theorem replay_startLoop (sched : Nat → List Nat) :
    ∀ (as : List (Adapter W)) (t : Nat) (pending : List (Adapter W)) (w : W)
      (rest : List (Act W)),
      replay ((startLoop sched as t pending w).trace ++ rest) w =
        replay rest (startLoop sched as t pending w).world := by
  intro as
  induction as with
  | nil => intro t pending w rest; rfl
  | cons a as ih =>
    intro t pending w rest
    simp only [startLoop, List.cons_append, List.append_assoc]
    change replay ((runPicked (sched t) (pending ++ [a]) w).trace ++
      ((startLoop sched as (t + 1) (runPicked (sched t) (pending ++ [a]) w).pending
        (runPicked (sched t) (pending ++ [a]) w).world).trace ++ rest)) w = _
    rw [replay_runPicked, ih]

theorem stopLoop_projections (sched : Nat → List Nat) :
    ∀ (as : List (Adapter W)) (t : Nat) (pending : List (Adapter W)) (w : W),
      launchedStarts (stopLoop sched as t pending w).trace = [] ∧
        stopCalls (stopLoop sched as t pending w).trace = as ∧
        (startCalls (stopLoop sched as t pending w).trace ++
          (stopLoop sched as t pending w).pending).Perm pending := by
  intro as
  induction as with
  | nil => intro t pending w; simp [stopLoop, launchedStarts, stopCalls, startCalls]
  | cons a as ih =>
    intro t pending w
    obtain ⟨y1, y2, y3⟩ := runPicked_projections (sched t) pending w
    obtain ⟨k1, k2, k3⟩ := ih (t + 1) (runPicked (sched t) pending w).pending
      (a.Stop (runPicked (sched t) pending w).world).2
    simp only [stopLoop]
    refine ⟨?_, ?_, ?_⟩
    · simp only [launchedStarts_append, y1, launchedStarts, List.nil_append]
      cases (a.Stop (runPicked (sched t) pending w).world).1 <;> simp [launchedStarts, k1]
    · simp only [stopCalls_append, y2, stopCalls, List.nil_append]
      cases (a.Stop (runPicked (sched t) pending w).world).1 <;> simp [stopCalls, k2]
    · have hs : startCalls (Act.callStop a ::
          ((match (a.Stop (runPicked (sched t) pending w).world).1 with
            | none => []
            | some err => [Act.print (stopErrorLog a.Name err)]) ++
            (stopLoop sched as (t + 1) (runPicked (sched t) pending w).pending
              (a.Stop (runPicked (sched t) pending w).world).2).trace)) =
          startCalls (stopLoop sched as (t + 1) (runPicked (sched t) pending w).pending
              (a.Stop (runPicked (sched t) pending w).world).2).trace := by
        cases (a.Stop (runPicked (sched t) pending w).world).1 <;> simp [startCalls]
      simp only [startCalls_append, hs, List.append_assoc]
      exact (k3.append_left _).trans y3

theorem replay_stopLoop (sched : Nat → List Nat) :
    ∀ (as : List (Adapter W)) (t : Nat) (pending : List (Adapter W)) (w : W)
      (rest : List (Act W)),
      replay ((stopLoop sched as t pending w).trace ++ rest) w =
        replay rest (stopLoop sched as t pending w).world := by
  intro as
  induction as with
  | nil => intro t pending w rest; rfl
  | cons a as ih =>
    intro t pending w rest
    simp only [stopLoop, List.append_assoc]
    rw [replay_runPicked]
    cases h : (a.Stop (runPicked (sched t) pending w).world).1 with
    | none => simp [replay, h, ih]
    | some err => simp [replay, h, ih]

theorem pollLoop_spec (b : Bot W) (sched : Nat → List Nat) (closes : Nat → Bool) (n : Nat) :
    ∀ (i t : Nat) (closed : Bool) (fuel : Nat) (pending : List (Adapter W)) (w : W),
      (∀ j < n, closes (i + j) = false) → (0 < n → closed = false) →
      (closed || closes (i + n)) = true → n < fuel →
      ∃ d, pollLoop b sched closes fuel i t closed pending w = some d ∧
        d.bot = { b with shouldExit := true } ∧
        launchedStarts d.trace = [] ∧ stopCalls d.trace = b.adapters ∧
        (startCalls d.trace ++ d.pending).Perm pending ∧
        ∀ rest, replay (d.trace ++ rest) w = replay rest d.world := by
  induction n with
  | zero =>
    intro i t closed fuel pending w _ _ hk hfuel
    obtain ⟨f, rfl⟩ : ∃ f, fuel = f + 1 := ⟨fuel - 1, by omega⟩
    simp only [Nat.add_zero] at hk
    obtain ⟨y1, y2, y3⟩ := runPicked_projections (sched t) pending w
    obtain ⟨s1, s2, s3⟩ := stopLoop_projections sched b.adapters (t + 1)
      (runPicked (sched t) pending w).pending (runPicked (sched t) pending w).world
    have hrun : pollLoop b sched closes (f + 1) i t closed pending w =
        some (Ran.mk { b with shouldExit := true }
          (stopLoop sched b.adapters (t + 1) (runPicked (sched t) pending w).pending
            (runPicked (sched t) pending w).world).world
          ((runPicked (sched t) pending w).trace ++
            ([.print exitingLog, .readAdapters] ++
              (stopLoop sched b.adapters (t + 1) (runPicked (sched t) pending w).pending
                (runPicked (sched t) pending w).world).trace))
          (stopLoop sched b.adapters (t + 1) (runPicked (sched t) pending w).pending
            (runPicked (sched t) pending w).world).pending) := by
      simp only [pollLoop, hk, if_true]
    refine ⟨_, hrun, rfl, ?_, ?_, ?_, ?_⟩
    · simp [launchedStarts_append, launchedStarts, y1, s1]
    · simp [stopCalls_append, stopCalls, y2, s2]
    · simp only [startCalls_append, startCalls, List.nil_append, List.append_assoc]
      exact (s3.append_left _).trans y3
    · intro rest
      simp only [List.append_assoc]
      rw [replay_runPicked]
      simp only [List.cons_append, List.nil_append, replay]
      exact replay_stopLoop sched b.adapters (t + 1) _ _ rest
  | succ n ih =>
    intro i t closed fuel pending w hbefore hclosed hk hfuel
    obtain ⟨f, rfl⟩ : ∃ f, fuel = f + 1 := ⟨fuel - 1, by omega⟩
    have h0 : closes i = false := by simpa using hbefore 0 (Nat.succ_pos n)
    have hc : closed = false := hclosed (Nat.succ_pos n)
    obtain ⟨y1, y2, y3⟩ := runPicked_projections (sched t) pending w
    obtain ⟨d, hd, hbot, d1, d2, d3, d4⟩ := ih (i + 1) (t + 1) false f
      (runPicked (sched t) pending w).pending (runPicked (sched t) pending w).world
      (fun j hj => by
        have := hbefore (j + 1) (Nat.succ_lt_succ hj)
        rwa [show i + (j + 1) = i + 1 + j by omega] at this)
      (fun _ => rfl)
      (by
        rw [hc] at hk
        rwa [show i + (n + 1) = i + 1 + n by omega] at hk)
      (by omega)
    refine ⟨{ d with trace := (runPicked (sched t) pending w).trace ++ (Act.sleep :: d.trace) },
      by simp [pollLoop, h0, hc, hd], hbot, ?_, ?_, ?_, ?_⟩
    · simp [launchedStarts_append, launchedStarts, y1, d1]
    · simp [stopCalls_append, stopCalls, y2, d2]
    · simp only [startCalls_append, startCalls, List.append_assoc]
      exact (d3.append_left _).trans y3
    · intro rest
      simp only [List.append_assoc]
      rw [replay_runPicked]
      simp only [List.cons_append, replay]
      exact d4 rest

theorem Run_spec (b : Bot W) (lower : String → String) (sched : Nat → List Nat)
    (closes : Nat → Bool) (k fuel : Nat) (w : W)
    (hbefore : ∀ j < k, (b.shouldExit || closes j) = false)
    (hk : (b.shouldExit || closes k) = true) (hfuel : k < fuel) :
    ∃ d, b.Run lower sched closes fuel w = some d ∧
      d.bot = { b with shouldExit := true } ∧
      launchedStarts d.trace = b.adapters ∧ stopCalls d.trace = b.adapters ∧
      (startCalls d.trace ++ d.pending).Perm b.adapters ∧
      replay d.trace w = some d.world := by
  obtain ⟨s1, s2, s3⟩ := startLoop_projections sched b.adapters 0 [] w
  obtain ⟨d, hd, hbot, d1, d2, d3, d4⟩ := pollLoop_spec b sched closes k 0 b.adapters.length
    b.shouldExit fuel (startLoop sched b.adapters 0 [] w).pending
    (startLoop sched b.adapters 0 [] w).world
    (fun j hj => by
      have := hbefore j hj
      rw [Bool.or_eq_false_iff] at this
      simpa using this.2)
    (fun hpos => by
      have := hbefore 0 hpos
      rw [Bool.or_eq_false_iff] at this
      exact this.1)
    (by simpa using hk) hfuel
  refine ⟨{ d with trace := [.notify] ++ b.showBotState lower ++ [.goListener, .readAdapters]
      ++ (startLoop sched b.adapters 0 [] w).trace ++ d.trace },
    by simp [Bot.Run, hd], hbot, ?_, ?_, ?_, ?_⟩
  · simp [launchedStarts_append, launchedStarts, Bot.showBotState, s1, d1]
  · simp [stopCalls_append, stopCalls, Bot.showBotState, s2, d2]
  · have h := (d3.append_left (startCalls (startLoop sched b.adapters 0 [] w).trace)).trans s3
    simpa [startCalls_append, startCalls, Bot.showBotState] using h
  · have h := replay_startLoop sched b.adapters 0 [] w (d.trace ++ [])
    rw [d4 []] at h
    simp only [List.append_nil] at h
    simp only [Bot.showBotState, List.cons_append, List.nil_append, List.append_assoc, replay]
    exact h

theorem runPicked_idle (picks : List Nat) (pending : List (Adapter W)) (w : W)
    (h : picks = [] ∨ pending = []) :
    runPicked picks pending w = { pending := pending, world := w, trace := [] } := by
  rcases h with rfl | rfl
  · rfl
  · induction picks with
    | nil => rfl
    | cons i picks ih => simpa [runPicked] using ih

theorem stopLoop_idle (sched : Nat → List Nat) :
    ∀ (as : List (Adapter W)) (t : Nat) (pending : List (Adapter W)) (w : W),
      ((∀ t, sched t = []) ∨ pending = []) →
      (stopLoop sched as t pending w).world = as.foldl (fun w a => (a.Stop w).2) w ∧
        (stopLoop sched as t pending w).pending = pending ∧
        startCalls (stopLoop sched as t pending w).trace = [] := by
  intro as
  induction as with
  | nil => intro t pending w _; exact ⟨rfl, rfl, rfl⟩
  | cons a as ih =>
    intro t pending w h
    have hy := runPicked_idle (sched t) pending w (h.imp (fun hs => hs t) id)
    obtain ⟨h1, h2, h3⟩ := ih (t + 1) pending (a.Stop w).2 h
    simp only [stopLoop, hy, List.foldl_cons, List.nil_append]
    refine ⟨h1, h2, ?_⟩
    cases (a.Stop w).1 <;> simp [startCalls, h3]

theorem startLoop_quiet (sched : Nat → List Nat) (hq : ∀ t, sched t = []) :
    ∀ (as : List (Adapter W)) (t : Nat) (pending : List (Adapter W)) (w : W),
      (startLoop sched as t pending w).world = w ∧
        (startLoop sched as t pending w).pending = pending ++ as := by
  intro as
  induction as with
  | nil => intro t pending w; simp [startLoop]
  | cons a as ih =>
    intro t pending w
    have hy := runPicked_idle (sched t) (pending ++ [a]) w (Or.inl (hq t))
    obtain ⟨h1, h2⟩ := ih (t + 1) (pending ++ [a]) w
    simp only [startLoop, hy]
    exact ⟨h1, by rw [h2]; simp⟩

theorem pollLoop_idle (b : Bot W) (sched : Nat → List Nat) (closes : Nat → Bool) :
    ∀ (fuel i t : Nat) (closed : Bool) (pending : List (Adapter W)) (w : W) (d : Ran W),
      ((∀ t, sched t = []) ∨ pending = []) →
      pollLoop b sched closes fuel i t closed pending w = some d →
      d.world = b.adapters.foldl (fun w a => (a.Stop w).2) w ∧ d.pending = pending ∧
        startCalls d.trace = [] := by
  intro fuel
  induction fuel with
  | zero => intro i t closed pending w d _ h; simp [pollLoop] at h
  | succ fuel ih =>
    intro i t closed pending w d hidle h
    have hy := runPicked_idle (sched t) pending w (hidle.imp (fun hs => hs t) id)
    simp only [pollLoop, hy] at h
    split at h
    · simp only [Option.some.injEq] at h
      subst h
      obtain ⟨h1, h2, h3⟩ := stopLoop_idle sched b.adapters (t + 1) pending w hidle
      exact ⟨h1, h2, by simp [startCalls, h3]⟩
    · cases hrec : pollLoop b sched closes fuel (i + 1) (t + 1) false pending w with
      | none => simp [hrec] at h
      | some d0 =>
        simp only [hrec, Option.some.injEq] at h
        subst h
        obtain ⟨h1, h2, h3⟩ := ih (i + 1) (t + 1) false pending w d0 hidle hrec
        exact ⟨h1, h2, by simp [startCalls, h3]⟩

theorem Run_quiet (b : Bot W) (lower : String → String) (sched : Nat → List Nat)
    (closes : Nat → Bool) (fuel : Nat) (w : W) (d : Ran W) (hq : ∀ t, sched t = [])
    (h : b.Run lower sched closes fuel w = some d) :
    d.world = b.adapters.foldl (fun w a => (a.Stop w).2) w ∧ d.pending = b.adapters ∧
      startCalls d.trace = [] := by
  obtain ⟨s1, s2⟩ := startLoop_quiet sched hq b.adapters 0 [] w
  simp only [Bot.Run, s1, s2, List.nil_append] at h
  cases hrec : pollLoop b sched closes fuel 0 b.adapters.length b.shouldExit b.adapters w with
  | none => simp [hrec] at h
  | some d0 =>
    simp only [hrec, Option.some.injEq] at h
    subst h
    obtain ⟨h1, h2, h3⟩ := pollLoop_idle b sched closes fuel 0 b.adapters.length b.shouldExit
      b.adapters w d0 (Or.inl hq) hrec
    have hs : startCalls (startLoop sched b.adapters 0 [] w).trace = [] := by
      have hp := (startLoop_projections sched b.adapters 0 [] w).2.2
      rw [s2] at hp
      have hl := hp.length_eq
      simp only [List.length_append, List.nil_append] at hl
      exact List.eq_nil_of_length_eq_zero (by omega)
    exact ⟨h1, h2, by simp [startCalls, startCalls_append, Bot.showBotState, hs, h3]⟩

/-- C3: when the shutdown channel is first observed closed at the poll number `k` (it was
open at every earlier poll) and `Run` is given more than `k` polls, then under every
scheduling of the `Start` goroutines `Run` returns; the `Stop` calls it made are exactly
one per registered adapter, in registration order, whatever the calls return; every one of
them is the call of the adapter's own `Stop` in the world reached so far, a failing one
followed by its log line and then by the next adapter's `Stop` (the trace replays to the
final world); and when no `Start` goroutine is scheduled, the final world is the entry
world folded through the `Stop` of every adapter in registration order. -/
theorem Run_stops_each_adapter_in_order (b : Bot W) (lower : String → String)
    (sched : Nat → List Nat) (closes : Nat → Bool) (k fuel : Nat) (w : W)
    (hbefore : ∀ j < k, (b.shouldExit || closes j) = false)
    (hk : (b.shouldExit || closes k) = true) (hfuel : k < fuel) :
    ∃ d, b.Run lower sched closes fuel w = some d ∧ stopCalls d.trace = b.adapters ∧
      replay d.trace w = some d.world ∧
      ((∀ t, sched t = []) → d.world = b.adapters.foldl (fun w a => (a.Stop w).2) w) := by
  obtain ⟨d, hd, _, _, hstop, _, hreplay⟩ := Run_spec b lower sched closes k fuel w hbefore hk
    hfuel
  exact ⟨d, hd, hstop, hreplay, fun hq => (Run_quiet b lower sched closes fuel w d hq hd).1⟩

end Lifecycle

section ModuleLoader

variable {W H S : Type}

theorem loadLoop_all_ok (L : Loader W H S) :
    ∀ (files : List String) (ps : List (Plugin W)) (b : Bot W) (w : W),
      files.map (loadFile L) = ps.map Except.ok →
      (loadLoop L files b w).value = none ∧
        (loadLoop L files b w).bot = { b with plugins := b.plugins ++ ps } ∧
        openedFiles (loadLoop L files b w).trace = files := by
  intro files
  induction files with
  | nil =>
    intro ps b w h
    cases ps with
    | nil => simp [loadLoop, openedFiles]
    | cons p ps => simp at h
  | cons f files ih =>
    intro ps b w h
    cases ps with
    | nil => simp at h
    | cons p ps =>
      simp only [List.map_cons, List.cons.injEq] at h
      obtain ⟨hf, hrest⟩ := h
      obtain ⟨h1, h2, h3⟩ := ih ps (b.AddPlugin p w).bot (b.AddPlugin p w).world hrest
      simp only [loadLoop, hf]
      refine ⟨h1, h2.trans (by simp [Bot.AddPlugin]), ?_⟩
      simpa [openedFiles, openedFiles_append, Bot.AddPlugin] using h3

theorem loadLoop_first_failure (L : Loader W H S) (f : String) (post : List String)
    (err : String) (hf : loadFile L f = .error err) :
    ∀ (pre : List String) (ps : List (Plugin W)) (b : Bot W) (w : W),
      pre.map (loadFile L) = ps.map Except.ok →
      (loadLoop L (pre ++ f :: post) b w).value = some err ∧
        (loadLoop L (pre ++ f :: post) b w).bot = { b with plugins := b.plugins ++ ps } ∧
        openedFiles (loadLoop L (pre ++ f :: post) b w).trace = pre ++ [f] := by
  intro pre
  induction pre with
  | nil =>
    intro ps b w h
    cases ps with
    | nil => simp [loadLoop, hf, openedFiles]
    | cons p ps => simp at h
  | cons g pre ih =>
    intro ps b w h
    cases ps with
    | nil => simp at h
    | cons p ps =>
      simp only [List.map_cons, List.cons.injEq] at h
      obtain ⟨hg, hrest⟩ := h
      obtain ⟨h1, h2, h3⟩ := ih ps (b.AddPlugin p w).bot (b.AddPlugin p w).world hrest
      rw [List.cons_append]
      simp only [loadLoop, hg]
      refine ⟨h1, h2.trans (by simp [Bot.AddPlugin]), ?_⟩
      simpa [openedFiles, openedFiles_append, Bot.AddPlugin] using h3

theorem loadLoop_adapters (L : Loader W H S) :
    ∀ (files : List String) (b : Bot W) (w : W),
      (loadLoop L files b w).bot.adapters = b.adapters := by
  intro files
  induction files with
  | nil => intro b w; rfl
  | cons f files ih =>
    intro b w
    simp only [loadLoop]
    cases hf : loadFile L f with
    | error err => rfl
    | ok p => simpa [Bot.AddPlugin] using ih (b.AddPlugin p w).bot (b.AddPlugin p w).world

/-- C4: `LoadPluginsFromDir` never changes the adapter registry.  When the glob fails it
returns that error, opens no file and leaves the bot as it was.  When every matched file
loads (file number `i` giving the plugin `ps[i]`), it returns no error, has opened every
file in order, and the plugin registry is the previous one followed by `ps`.  When the
matched files are `pre ++ f :: post`, the files of `pre` load (giving `ps`) and `f` is the
first that fails, with `err`, it returns `err`, has opened the files of `pre` and `f` and
none of `post`, and the plugin registry is the previous one followed by `ps`: the plugins
loaded before the failure stay registered. -/
theorem LoadPluginsFromDir_stops_at_first_failure (L : Loader W H S) (b : Bot W)
    (dir : String) (w : W) :
    (b.LoadPluginsFromDir L dir w).bot.adapters = b.adapters ∧
    (∀ err, L.Glob (L.Join dir "*.so") = .error err →
      (b.LoadPluginsFromDir L dir w).value = some err ∧
        (b.LoadPluginsFromDir L dir w).bot = b ∧
        openedFiles (b.LoadPluginsFromDir L dir w).trace = []) ∧
    (∀ files ps, L.Glob (L.Join dir "*.so") = .ok files →
      files.map (loadFile L) = ps.map Except.ok →
      (b.LoadPluginsFromDir L dir w).value = none ∧
        (b.LoadPluginsFromDir L dir w).bot = { b with plugins := b.plugins ++ ps } ∧
        openedFiles (b.LoadPluginsFromDir L dir w).trace = files) ∧
    (∀ pre f post ps err, L.Glob (L.Join dir "*.so") = .ok (pre ++ f :: post) →
      pre.map (loadFile L) = ps.map Except.ok → loadFile L f = .error err →
      (b.LoadPluginsFromDir L dir w).value = some err ∧
        (b.LoadPluginsFromDir L dir w).bot = { b with plugins := b.plugins ++ ps } ∧
        openedFiles (b.LoadPluginsFromDir L dir w).trace = pre ++ [f]) := by
  refine ⟨?_, ?_, ?_, ?_⟩
  · simp only [Bot.LoadPluginsFromDir]
    cases hg : L.Glob (L.Join dir "*.so") with
    | error err => rfl
    | ok files => exact loadLoop_adapters L files b w
  · intro err hg
    simp [Bot.LoadPluginsFromDir, hg, openedFiles]
  · intro files ps hg hall
    simpa [Bot.LoadPluginsFromDir, hg, openedFiles] using loadLoop_all_ok L files ps b w hall
  · intro pre f post ps err hg hpre hf
    simpa [Bot.LoadPluginsFromDir, hg, openedFiles] using
      loadLoop_first_failure L f post err hf pre ps b w hpre

end ModuleLoader

section ShutdownChannel

theorem exec_cons (s : Shutdown) (st : Step) (steps : List Step) :
    s.exec (st :: steps) = (s.step st).exec steps := rfl

theorem exec_append (s : Shutdown) (xs ys : List Step) :
    s.exec (xs ++ ys) = (s.exec xs).exec ys := by
  simp [Shutdown.exec, List.foldl_append]

/-- A property that the steps of a kind keep is kept by a sequence of such steps. -/
theorem exec_preserves (P : Shutdown → Prop) (Q : Step → Prop)
    (hstep : ∀ s st, P s → Q st → P (s.step st)) :
    ∀ (steps : List Step) (s : Shutdown), P s → (∀ st ∈ steps, Q st) → P (s.exec steps) := by
  intro steps
  induction steps with
  | nil => intro s h _; exact h
  | cons st steps ih =>
    intro s h hq
    exact ih _ (hstep s st h (hq st (List.mem_cons_self _ _)))
      (fun x hx => hq x (List.mem_cons_of_mem _ hx))

theorem listenerReady_single (l : Listener) (i : Nat) :
    listenerReady [l] i = (decide (i = 0) && (l.waiting && l.pending)) := by
  cases i with
  | zero => simp [listenerReady]
  | succ i => simp [listenerReady]

theorem runEntries_eq_zero_iff (steps : List Step) :
    runEntries steps = 0 ↔ Step.enterRun ∉ steps := by
  induction steps with
  | nil => simp [runEntries]
  | cons st steps ih => cases st <;> simp [runEntries, ih]

theorem ended_step (st : Step) : Shutdown.ended.step st = Shutdown.ended := by
  simp [Shutdown.step, Shutdown.ended, Shutdown.fresh]

theorem ended_exec (steps : List Step) : Shutdown.ended.exec steps = Shutdown.ended :=
  exec_preserves (fun s => s = Shutdown.ended) (fun _ => True)
    (fun s st hs _ => by rw [hs]; exact ended_step st) steps _ rfl (fun _ _ => trivial)

theorem fresh_step (st : Step) (hst : st ≠ .enterRun) :
    Shutdown.fresh.step st = Shutdown.fresh ∨ Shutdown.fresh.step st = Shutdown.ended := by
  cases st with
  | enterRun => exact absurd rfl hst
  | signal => right; rfl
  | receive i => left; simp [Shutdown.step, Shutdown.fresh, listenerReady]

theorem fresh_step_quiet (st : Step) (hst : st ≠ .enterRun) (hsig : st ≠ .signal) :
    Shutdown.fresh.step st = Shutdown.fresh := by
  cases st with
  | enterRun => exact absurd rfl hst
  | signal => exact absurd rfl hsig
  | receive i => simp [Shutdown.step, Shutdown.fresh, listenerReady]

theorem fresh_or_ended_exec (steps : List Step) (h : Step.enterRun ∉ steps) :
    Shutdown.fresh.exec steps = Shutdown.fresh ∨ Shutdown.fresh.exec steps = Shutdown.ended :=
  exec_preserves (fun s => s = Shutdown.fresh ∨ s = Shutdown.ended) (fun st => st ≠ .enterRun)
    (fun s st hs hst => by
      rcases hs with rfl | rfl
      · exact fresh_step st hst
      · right; exact ended_step st)
    steps _ (Or.inl rfl) (fun st hmem heq => h (heq ▸ hmem))

theorem fresh_exec (steps : List Step) (h : Step.enterRun ∉ steps) (hsig : Step.signal ∉ steps) :
    Shutdown.fresh.exec steps = Shutdown.fresh :=
  exec_preserves (fun s => s = Shutdown.fresh) (fun st => st ≠ .enterRun ∧ st ≠ .signal)
    (fun s st hs hst => by rw [hs]; exact fresh_step_quiet st hst.1 hst.2)
    steps _ rfl (fun _ hmem => ⟨fun heq => h (heq ▸ hmem), fun heq => hsig (heq ▸ hmem)⟩)

theorem singleRun_step (s : Shutdown) (st : Step) (h : s.singleRun) (hst : st ≠ .enterRun) :
    (s.step st).singleRun := by
  obtain ⟨l, hl, htw, hex, hcase⟩ := h
  cases st with
  | enterRun => exact absurd rfl hst
  | signal =>
    refine ⟨{ l with pending := true }, by simp [Shutdown.step, hl, htw, hex],
      by simp [Shutdown.step, hl, htw, hex], by simp [Shutdown.step, hl, htw, hex], ?_⟩
    simpa [Shutdown.step, hl, htw, hex] using hcase
  | receive i =>
    simp only [Shutdown.step, hl, htw, hex, listenerReady_single, Bool.or_self,
      Bool.false_eq_true, if_false]
    by_cases hr : (decide (i = 0) && (l.waiting && l.pending)) = true
    · simp only [hr, if_true]
      simp only [Bool.and_eq_true, decide_eq_true_eq] at hr
      obtain ⟨rfl, hw, _⟩ := hr
      rcases hcase with ⟨_, hc, hn⟩ | ⟨hw', _, _⟩
      · exact ⟨{ pending := false, waiting := false }, by simp, by simp [hc], by simp [hex],
          Or.inr ⟨rfl, rfl, by simp [hn]⟩⟩
      · rw [hw'] at hw; exact absurd hw (by decide)
    · simp only [hr]
      exact ⟨l, hl, htw, hex, hcase⟩

theorem armed_step (s : Shutdown) (st : Step) (h : s.armed) (hst : st ≠ .enterRun) :
    (s.step st).armed := by
  obtain ⟨l, hl, htw, hex, hcase⟩ := h
  cases st with
  | enterRun => exact absurd rfl hst
  | signal =>
    refine ⟨{ l with pending := true }, by simp [Shutdown.step, hl, htw, hex],
      by simp [Shutdown.step, hl, htw, hex], by simp [Shutdown.step, hl, htw, hex], ?_⟩
    rcases hcase with ⟨hw, _, hc, hn⟩ | ⟨hw, hc, hn⟩
    · exact Or.inl ⟨hw, rfl, by simp [Shutdown.step, hl, htw, hex, hc],
        by simp [Shutdown.step, hl, htw, hex, hn]⟩
    · exact Or.inr ⟨hw, by simp [Shutdown.step, hl, htw, hex, hc],
        by simp [Shutdown.step, hl, htw, hex, hn]⟩
  | receive i =>
    simp only [Shutdown.step, hl, htw, hex, listenerReady_single, Bool.or_self,
      Bool.false_eq_true, if_false]
    by_cases hr : (decide (i = 0) && (l.waiting && l.pending)) = true
    · simp only [hr, if_true]
      simp only [Bool.and_eq_true, decide_eq_true_eq] at hr
      obtain ⟨rfl, hw, _⟩ := hr
      rcases hcase with ⟨_, _, hc, hn⟩ | ⟨hw', _, _⟩
      · exact ⟨{ pending := false, waiting := false }, by simp, by simp [hc], by simp [hex],
          Or.inr ⟨rfl, rfl, by simp [hn]⟩⟩
      · rw [hw'] at hw; exact absurd hw (by decide)
    · simp only [hr]
      exact ⟨l, hl, htw, hex, hcase⟩

theorem fired_step (s : Shutdown) (st : Step) (h : s.fired) (hst : st ≠ .enterRun) :
    (s.step st).fired := by
  obtain ⟨l, hl, htw, hex, hw, hc, hn⟩ := h
  cases st with
  | enterRun => exact absurd rfl hst
  | signal =>
    exact ⟨{ l with pending := true }, by simp [Shutdown.step, hl, htw, hex],
      by simp [Shutdown.step, hl, htw, hex], by simp [Shutdown.step, hl, htw, hex], hw,
      by simp [Shutdown.step, hl, htw, hex, hc], by simp [Shutdown.step, hl, htw, hex, hn]⟩
  | receive i =>
    have hr : listenerReady s.listeners i = false := by
      rw [hl, listenerReady_single, hw]; simp
    simp only [Shutdown.step, hr, htw, hex, Bool.or_self, Bool.false_eq_true, if_false]
    exact ⟨l, hl, htw, hex, hw, hc, hn⟩

theorem listening_step_quiet (s : Shutdown) (st : Step) (h : s.listening false)
    (hst : st ≠ .enterRun ∧ st ≠ .signal) : (s.step st).listening false := by
  cases st with
  | enterRun => exact absurd rfl hst.1
  | signal => exact absurd rfl hst.2
  | receive i =>
    rw [Shutdown.listening] at h
    subst h
    simp [Shutdown.step, Shutdown.listening, listenerReady_single]

theorem listening_step_pending (s : Shutdown) (st : Step) (h : s.listening true)
    (hst : st ≠ .enterRun ∧ st ≠ .receive 0) : (s.step st).listening true := by
  rw [Shutdown.listening] at h
  subst h
  cases st with
  | enterRun => exact absurd rfl hst.1
  | signal => simp [Shutdown.step, Shutdown.listening]
  | receive i =>
    have hi : i ≠ 0 := fun h0 => hst.2 (by rw [h0])
    simp [Shutdown.step, Shutdown.listening, listenerReady_single, hi]

theorem listening_enterRun : (Shutdown.fresh.step .enterRun).listening false := rfl

theorem listening_signal (s : Shutdown) (h : s.listening false) :
    (s.step .signal).listening true := by
  rw [Shutdown.listening] at h
  subst h
  rfl

theorem singleRun_of_listening (p : Bool) (s : Shutdown) (h : s.listening p) :
    s.singleRun := by
  rw [Shutdown.listening] at h
  subst h
  exact ⟨_, rfl, rfl, rfl, Or.inl ⟨rfl, rfl, rfl⟩⟩

theorem armed_of_signal (s : Shutdown) (h : s.singleRun) : (s.step .signal).armed := by
  obtain ⟨l, hl, htw, hex, hcase⟩ := h
  refine ⟨{ l with pending := true }, by simp [Shutdown.step, hl, htw, hex],
    by simp [Shutdown.step, hl, htw, hex], by simp [Shutdown.step, hl, htw, hex], ?_⟩
  rcases hcase with ⟨hw, hc, hn⟩ | ⟨hw, hc, hn⟩
  · exact Or.inl ⟨hw, rfl, by simp [Shutdown.step, hl, htw, hex, hc],
      by simp [Shutdown.step, hl, htw, hex, hn]⟩
  · exact Or.inr ⟨hw, by simp [Shutdown.step, hl, htw, hex, hc],
      by simp [Shutdown.step, hl, htw, hex, hn]⟩

theorem fired_of_receive (s : Shutdown) (h : s.armed) : (s.step (.receive 0)).fired := by
  obtain ⟨l, hl, htw, hex, hcase⟩ := h
  rcases hcase with ⟨hw, hp, hc, hn⟩ | ⟨hw, hc, hn⟩
  · have hr : listenerReady s.listeners 0 = true := by
      rw [hl, listenerReady_single, hw, hp]; rfl
    simp only [Shutdown.step, hr, htw, hex, Bool.or_self, Bool.false_eq_true, if_false,
      if_true]
    exact ⟨{ pending := false, waiting := false }, by simp [hl], by simp [hc], by simp [hex],
      rfl, rfl, by simp [hn]⟩
  · have hr : listenerReady s.listeners 0 = false := by
      rw [hl, listenerReady_single, hw]; rfl
    simp only [Shutdown.step, hr, htw, hex, Bool.or_self, Bool.false_eq_true, if_false]
    exact ⟨l, hl, htw, hex, hw, hc, hn⟩

theorem reachable_with_one_Run (steps : List Step) :
    ∀ s : Shutdown, (s = Shutdown.fresh ∨ s = Shutdown.ended) → runEntries steps ≤ 1 →
      s.exec steps = Shutdown.fresh ∨ s.exec steps = Shutdown.ended ∨
        (s.exec steps).singleRun := by
  induction steps with
  | nil =>
    intro s hs _
    rcases hs with rfl | rfl
    · left; rfl
    · right; left; rfl
  | cons st steps ih =>
    intro s hs h
    rcases hs with rfl | rfl
    · cases st with
      | enterRun =>
        right; right
        have h0 : Step.enterRun ∉ steps := by
          rw [← runEntries_eq_zero_iff]
          simp only [runEntries] at h
          omega
        exact exec_preserves Shutdown.singleRun (fun st => st ≠ .enterRun) singleRun_step steps _
          (singleRun_of_listening false _ listening_enterRun)
          (fun st hmem heq => h0 (heq ▸ hmem))
      | signal => exact ih _ (Or.inr rfl) (by simpa [runEntries] using h)
      | receive i =>
        rw [exec_cons, fresh_step_quiet _ (by simp) (by simp)]
        exact ih _ (Or.inl rfl) (by simpa [runEntries] using h)
    · right; left
      exact ended_exec _

theorem safe_of_reachable (s : Shutdown)
    (h : s = Shutdown.fresh ∨ s = Shutdown.ended ∨ s.singleRun) :
    s.closedTwice = false ∧ s.closeCalls ≤ 1 ∧ (s.closed = true ↔ s.closeCalls = 1) := by
  rcases h with rfl | rfl | ⟨l, _, htw, _, hcase⟩
  · simp [Shutdown.fresh]
  · simp [Shutdown.ended, Shutdown.fresh]
  · rcases hcase with ⟨_, hc, hn⟩ | ⟨_, hc, hn⟩
    · simp [htw, hc, hn]
    · simp [htw, hc, hn]

theorem open_while_listening (p : Bool) (pre rest : List Step) (hpre : Step.enterRun ∉ pre)
    (hrest : (Shutdown.fresh.step .enterRun).exec rest = Shutdown.ended ∨
      ((Shutdown.fresh.step .enterRun).exec rest).listening p)
    (hended : Shutdown.ended.exec (.enterRun :: rest) = Shutdown.ended) :
    (Shutdown.fresh.exec (pre ++ .enterRun :: rest)).closed = false ∧
      (Shutdown.fresh.exec (pre ++ .enterRun :: rest)).closeCalls = 0 := by
  rw [exec_append]
  rcases fresh_or_ended_exec pre hpre with h | h
  · rw [h, exec_cons]
    rcases hrest with hr | hr
    · rw [hr]; exact ⟨rfl, rfl⟩
    · rw [Shutdown.listening] at hr
      rw [hr]; exact ⟨rfl, rfl⟩
  · rw [h, hended]; exact ⟨rfl, rfl⟩

theorem open_until_signal (pre mid : List Step) (hpre : Step.enterRun ∉ pre)
    (hmid : Step.enterRun ∉ mid) (hsig : Step.signal ∉ mid) :
    (Shutdown.fresh.exec (pre ++ .enterRun :: mid)).closed = false ∧
      (Shutdown.fresh.exec (pre ++ .enterRun :: mid)).closeCalls = 0 :=
  open_while_listening false pre mid hpre
    (Or.inr (exec_preserves (Shutdown.listening false)
      (fun st => st ≠ .enterRun ∧ st ≠ .signal) listening_step_quiet mid _ listening_enterRun
      (fun _ hmem => ⟨fun heq => hmid (heq ▸ hmem), fun heq => hsig (heq ▸ hmem)⟩)))
    (ended_exec _)

theorem open_until_receive (pre mid wait : List Step) (hpre : Step.enterRun ∉ pre)
    (hmid : Step.enterRun ∉ mid) (hsig : Step.signal ∉ mid) (hwait : Step.enterRun ∉ wait)
    (hrecv : Step.receive 0 ∉ wait) :
    (Shutdown.fresh.exec (pre ++ .enterRun :: (mid ++ .signal :: wait))).closed = false ∧
      (Shutdown.fresh.exec (pre ++ .enterRun :: (mid ++ .signal :: wait))).closeCalls = 0 :=
  open_while_listening true pre (mid ++ .signal :: wait) hpre
    (Or.inr (by
      rw [exec_append, exec_cons]
      exact exec_preserves (Shutdown.listening true)
        (fun st => st ≠ .enterRun ∧ st ≠ .receive 0) listening_step_pending wait _
        (listening_signal _ (exec_preserves (Shutdown.listening false)
          (fun st => st ≠ .enterRun ∧ st ≠ .signal) listening_step_quiet mid _
          listening_enterRun
          (fun _ hmem => ⟨fun heq => hmid (heq ▸ hmem), fun heq => hsig (heq ▸ hmem)⟩)))
        (fun _ hmem => ⟨fun heq => hwait (heq ▸ hmem), fun heq => hrecv (heq ▸ hmem)⟩)))
    (ended_exec _)

theorem ended_of_early_signal (pre : List Step) (hrun : Step.enterRun ∉ pre)
    (hsig : Step.signal ∈ pre) : Shutdown.fresh.exec pre = Shutdown.ended := by
  induction pre with
  | nil => simp at hsig
  | cons st pre ih =>
    cases st with
    | enterRun => exact absurd (List.mem_cons_self _ _) hrun
    | signal =>
      rw [exec_cons]
      exact ended_exec pre
    | receive i =>
      rw [exec_cons, fresh_step_quiet _ (by simp) (by simp)]
      exact ih (fun h => hrun (List.mem_cons_of_mem _ h)) (by simpa using hsig)

theorem fired_after_signal_and_receive (pre mid wait post : List Step)
    (hpre : Step.enterRun ∉ pre) (hpresig : Step.signal ∉ pre) (hmid : Step.enterRun ∉ mid)
    (hwait : Step.enterRun ∉ wait) (hpost : Step.enterRun ∉ post) :
    (Shutdown.fresh.exec
      (pre ++ .enterRun :: (mid ++ .signal :: (wait ++ .receive 0 :: post)))).fired := by
  rw [exec_append, fresh_exec pre hpre hpresig, exec_cons, exec_append, exec_cons, exec_append,
    exec_cons]
  have hne : ∀ (l : List Step), Step.enterRun ∉ l → ∀ st ∈ l, st ≠ Step.enterRun :=
    fun l hl st hmem heq => hl (heq ▸ hmem)
  exact exec_preserves Shutdown.fired (fun st => st ≠ .enterRun) fired_step post _
    (fired_of_receive _
      (exec_preserves Shutdown.armed (fun st => st ≠ .enterRun) armed_step wait _
        (armed_of_signal _
          (exec_preserves Shutdown.singleRun (fun st => st ≠ .enterRun) singleRun_step mid _
            (singleRun_of_listening false _ listening_enterRun) (hne mid hmid)))
        (hne wait hwait)))
    (hne post hpost)

end ShutdownChannel

section Digits

theorem digitChar_isDigit (d : Nat) (h : d < 10) : (Nat.digitChar d).isDigit = true := by
  interval_cases d <;> rfl

theorem digitChar_toNat (d : Nat) (h : d < 10) : (Nat.digitChar d).toNat - 48 = d := by
  interval_cases d <;> rfl

theorem toDigitsCore_isDigit (fuel : Nat) :
    ∀ (n : Nat) (ds : List Char), (∀ c ∈ ds, c.isDigit = true) →
      ∀ c ∈ Nat.toDigitsCore 10 fuel n ds, c.isDigit = true := by
  induction fuel with
  | zero => intro n ds h c hc; exact h c (by simpa [Nat.toDigitsCore] using hc)
  | succ fuel ih =>
    intro n ds h c hc
    have hd : (Nat.digitChar (n % 10)).isDigit = true :=
      digitChar_isDigit _ (Nat.mod_lt _ (by decide))
    have hds : ∀ x ∈ Nat.digitChar (n % 10) :: ds, x.isDigit = true := by
      intro x hx
      rcases List.mem_cons.1 hx with rfl | hx
      · exact hd
      · exact h x hx
    simp only [Nat.toDigitsCore] at hc
    split at hc
    · exact hds c hc
    · exact ih _ _ hds c hc

theorem toDigits_isDigit (n : Nat) : ∀ c ∈ Nat.toDigits 10 n, c.isDigit = true :=
  toDigitsCore_isDigit _ _ _ (by simp)

theorem toDigitsCore_append (fuel : Nat) :
    ∀ (n : Nat) (ds : List Char),
      Nat.toDigitsCore 10 fuel n ds = Nat.toDigitsCore 10 fuel n [] ++ ds := by
  induction fuel with
  | zero => intro n ds; simp [Nat.toDigitsCore]
  | succ fuel ih =>
    intro n ds
    simp only [Nat.toDigitsCore]
    split
    · simp
    · rw [ih _ (_ :: ds), ih _ [_]]
      simp

theorem decimalValue_toDigitsCore (fuel : Nat) :
    ∀ n, n < fuel → decimalValue (Nat.toDigitsCore 10 fuel n []) = n := by
  induction fuel with
  | zero => intro n h; omega
  | succ fuel ih =>
    intro n h
    simp only [Nat.toDigitsCore]
    split
    · rename_i h0
      have hlt : n < 10 := by omega
      have hmod : n % 10 = n := Nat.mod_eq_of_lt hlt
      simp [decimalValue, hmod, digitChar_toNat n hlt]
    · rename_i h0
      rw [toDigitsCore_append]
      have hrec := ih (n / 10) (by omega)
      simp only [decimalValue] at hrec ⊢
      rw [List.foldl_append, hrec]
      simp [digitChar_toNat _ (Nat.mod_lt n (by decide))]
      omega

theorem toDigits_injective (i j : Nat) (h : Nat.toDigits 10 i = Nat.toDigits 10 j) : i = j := by
  have hi := decimalValue_toDigitsCore (i + 1) i (Nat.lt_succ_self i)
  have hj := decimalValue_toDigitsCore (j + 1) j (Nat.lt_succ_self j)
  simp only [Nat.toDigits] at h
  rw [h] at hi
  omega

end Digits

section Placeholders

theorem placeholder_eq (i : Nat) :
    placeholder i = '{' :: (['t', 'e', 'x', 't', '['] ++ (Nat.toDigits 10 i ++ [']', '}'])) :=
  rfl

theorem placeholder_tail (i : Nat) :
    (placeholder i).tail = ['t', 'e', 'x', 't', '['] ++ (Nat.toDigits 10 i ++ [']', '}']) :=
  rfl

theorem placeholder_ne_nil (i : Nat) : placeholder i ≠ [] := by
  simp [placeholder_eq]

theorem placeholder_ne_mark (i : Nat) : placeholder i ≠ ['%', 's'] := by
  simp [placeholder_eq]

theorem brace_not_mem_tail (i : Nat) : '{' ∉ (placeholder i).tail := by
  intro h
  rw [placeholder_tail] at h
  simp only [List.mem_append, List.mem_cons, List.mem_singleton] at h
  rcases h with h | h | h
  · revert h; decide
  · have := toDigits_isDigit i _ h
    revert this; decide
  · revert h; decide

theorem percent_not_mem_tail (i : Nat) : '%' ∉ (placeholder i).tail := by
  intro h
  rw [placeholder_tail] at h
  simp only [List.mem_append, List.mem_cons, List.mem_singleton] at h
  rcases h with h | h | h
  · revert h; decide
  · have := toDigits_isDigit i _ h
    revert this; decide
  · revert h; decide

theorem eq_of_sep_append {x : Char} :
    ∀ (a b u v : List Char), x ∉ a → x ∉ b → a ++ x :: u <+: b ++ x :: v → a = b := by
  intro a
  induction a with
  | nil =>
    intro b u v _ hb h
    cases b with
    | nil => rfl
    | cons y b =>
      simp only [List.nil_append, List.cons_append, List.cons_prefix_cons] at h
      exact absurd (h.1 ▸ List.mem_cons_self _ _) hb
  | cons c a ih =>
    intro b u v ha hb h
    cases b with
    | nil =>
      simp only [List.nil_append, List.cons_append, List.cons_prefix_cons] at h
      exact absurd (h.1 ▸ List.mem_cons_self _ _) ha
    | cons y b =>
      simp only [List.cons_append, List.cons_prefix_cons] at h
      rw [h.1, ih b u v (fun hx => ha (List.mem_cons_of_mem _ hx))
        (fun hx => hb (List.mem_cons_of_mem _ hx)) h.2]

theorem bracket_not_mem_toDigits (i : Nat) : ']' ∉ Nat.toDigits 10 i := by
  intro h
  have := toDigits_isDigit i _ h
  revert this; decide

theorem placeholder_prefix_placeholder (k i : Nat) (rest : List Char)
    (h : placeholder k <+: placeholder i ++ rest) : k = i := by
  rw [placeholder_eq, placeholder_eq] at h
  simp only [List.cons_append, List.cons_prefix_cons, true_and, List.append_assoc] at h
  exact toDigits_injective k i
    (eq_of_sep_append _ _ _ _ (bracket_not_mem_toDigits k) (bracket_not_mem_toDigits i) h)

end Placeholders

section Scan

theorem replaceScan_skip (old new : List Char) :
    ∀ (s : List Char) (k : Nat), replaceScan old new k s = replaceScan old new 0 (s.drop k) := by
  intro s
  induction s with
  | nil => intro k; cases k <;> rfl
  | cons c cs ih =>
    intro k
    cases k with
    | zero => rfl
    | succ k => simpa [replaceScan] using ih k

theorem replaceScan_match (old new rest : List Char) (hne : old ≠ []) :
    replaceScan old new 0 (old ++ rest) = new ++ replaceScan old new 0 rest := by
  cases old with
  | nil => exact absurd rfl hne
  | cons c cs =>
    have hp : (c :: cs).isPrefixOf (c :: (cs ++ rest)) = true := by
      rw [List.isPrefixOf_iff_prefix]
      exact List.prefix_append (c :: cs) rest
    simp only [List.cons_append, replaceScan, hp, if_true]
    rw [replaceScan_skip]
    simp

theorem replaceScan_step (old new : List Char) (c : Char) (cs : List Char)
    (h : ¬ old <+: c :: cs) :
    replaceScan old new 0 (c :: cs) = c :: replaceScan old new 0 cs := by
  have hp : old.isPrefixOf (c :: cs) = false := by
    rw [← Bool.not_eq_true, List.isPrefixOf_iff_prefix]
    exact h
  simp [replaceScan, hp]

theorem replaceScan_nil (old new : List Char) (k : Nat) : replaceScan old new k [] = [] := by
  cases k <;> rfl

/-- A scan for an `old` that starts with `x` copies a piece without `x`. -/
theorem replaceScan_copy (x : Char) (body new : List Char) :
    ∀ (u v : List Char), x ∉ u →
      replaceScan (x :: body) new 0 (u ++ v) = u ++ replaceScan (x :: body) new 0 v := by
  intro u
  induction u with
  | nil => intro v _; rfl
  | cons c u ih =>
    intro v hx
    have hc : ¬ (x :: body) <+: c :: (u ++ v) := by
      rw [List.cons_prefix_cons]
      rintro ⟨rfl, _⟩
      exact hx (List.mem_cons_self _ _)
    rw [List.cons_append, replaceScan_step _ _ _ _ hc,
      ih v (fun h => hx (List.mem_cons_of_mem _ h))]
    rfl

/-- No occurrence of `old` starts inside a non-empty piece `a` that holds no `old`, when
what follows `a` is nothing or starts with a character that `old` has at most as its
first. -/
theorem not_prefix_of_clean (old a y : List Char) (ha : a ≠ []) (hclean : ¬ old <:+: a)
    (hy : ∀ x ∈ y.head?, x ∉ old.tail) : ¬ old <+: a ++ y := by
  intro h
  by_cases hlen : old.length ≤ a.length
  · exact hclean (List.prefix_of_prefix_length_le h (List.prefix_append a y) hlen).isInfix
  · have hao : a <+: old :=
      List.prefix_of_prefix_length_le (List.prefix_append a y) h (by omega)
    obtain ⟨r, rfl⟩ := hao
    rw [List.prefix_append_right_inj] at h
    cases r with
    | nil => simp at hlen
    | cons x r =>
      cases y with
      | nil => simp at h
      | cons z y =>
        rw [List.cons_prefix_cons] at h
        obtain ⟨rfl, _⟩ := h
        cases a with
        | nil => exact ha rfl
        | cons c a => exact hy x (by simp) (by simp)

/-- A scan copies a piece that holds no `old`, when what follows is nothing or starts
with a character that `old` has at most as its first. -/
theorem replaceScan_clean (old new : List Char) (y : List Char)
    (hy : ∀ x ∈ y.head?, x ∉ old.tail) :
    ∀ (a : List Char), ¬ old <:+: a →
      replaceScan old new 0 (a ++ y) = a ++ replaceScan old new 0 y := by
  intro a
  induction a with
  | nil => intro _; rfl
  | cons c a ih =>
    intro hclean
    have hc : ¬ old <+: (c :: a) ++ y :=
      not_prefix_of_clean old (c :: a) y (by simp) hclean hy
    rw [List.cons_append] at hc ⊢
    rw [replaceScan_step _ _ _ _ hc, ih (fun h => hclean (List.infix_cons h))]
    rfl

end Scan

section Weave

theorem weave_congr (f g : Nat → List Char) :
    ∀ (segs : List (List Char)) (i : Nat) (s0 : List Char),
      (∀ j, i ≤ j → j < i + segs.length → f j = g j) →
      weave f i s0 segs = weave g i s0 segs := by
  intro segs
  induction segs with
  | nil => intro i s0 _; rfl
  | cons seg rest ih =>
    intro i s0 h
    simp only [weave]
    rw [h i (Nat.le_refl i) (by simp), ih (i + 1) seg (fun j h1 h2 => h j (by omega) (by
      simp only [List.length_cons]; omega))]

theorem head_markedHole (k j : Nat) (y : List Char) :
    ∀ x ∈ (markedHole k j ++ y).head?, x = '%' ∨ x = '{' := by
  intro x hx
  unfold markedHole at hx
  split at hx
  · left; simpa using hx.symm
  · right; simpa [placeholder_eq] using hx.symm

theorem replaceScan_markedHole (k i : Nat) (y : List Char) :
    replaceScan (placeholder k) ['%', 's'] 0 (markedHole k i ++ y) =
      markedHole (k + 1) i ++ replaceScan (placeholder k) ['%', 's'] 0 y := by
  rcases Nat.lt_trichotomy i k with h | h | h
  · have h1 : markedHole k i = ['%', 's'] := by simp [markedHole, h]
    have h2 : markedHole (k + 1) i = ['%', 's'] := by simp [markedHole, Nat.lt_succ_of_lt h]
    rw [h1, h2]
    exact replaceScan_copy '{' (placeholder k).tail ['%', 's'] ['%', 's'] y (by decide)
  · subst h
    have h1 : markedHole i i = placeholder i := by simp [markedHole]
    have h2 : markedHole (i + 1) i = ['%', 's'] := by simp [markedHole]
    rw [h1, h2]
    exact replaceScan_match _ _ _ (placeholder_ne_nil i)
  · have h1 : markedHole k i = placeholder i := by simp [markedHole, Nat.lt_asymm h]
    have h2 : markedHole (k + 1) i = placeholder i := by
      simp [markedHole, Nat.not_lt.2 (Nat.succ_le_of_lt h)]
    rw [h1, h2]
    have hc : ¬ placeholder k <+: '{' :: ((placeholder i).tail ++ y) := fun hp =>
      absurd (placeholder_prefix_placeholder k i y hp) (Nat.ne_of_lt h)
    have hstep := replaceScan_step (placeholder k) ['%', 's'] '{' ((placeholder i).tail ++ y) hc
    have hcopy := replaceScan_copy '{' (placeholder k).tail ['%', 's'] (placeholder i).tail y
      (brace_not_mem_tail i)
    calc replaceScan (placeholder k) ['%', 's'] 0 (placeholder i ++ y)
        = '{' :: replaceScan (placeholder k) ['%', 's'] 0 ((placeholder i).tail ++ y) := hstep
      _ = '{' :: ((placeholder i).tail ++ replaceScan (placeholder k) ['%', 's'] 0 y) :=
          congrArg _ hcopy
      _ = placeholder i ++ replaceScan (placeholder k) ['%', 's'] 0 y := rfl

/-- One round of the loop of `Print` on a format whose literal pieces hold no
placeholder of that round. -/
theorem replaceScan_weave (k : Nat) :
    ∀ (segs : List (List Char)) (i : Nat) (s0 : List Char),
      (∀ s ∈ s0 :: segs, ¬ placeholder k <:+: s) →
      replaceScan (placeholder k) ['%', 's'] 0 (weave (markedHole k) i s0 segs) =
        weave (markedHole (k + 1)) i s0 segs := by
  intro segs
  induction segs with
  | nil =>
    intro i s0 h
    have := replaceScan_clean (placeholder k) ['%', 's'] [] (by simp) s0 (h s0 (by simp))
    simpa [weave, replaceScan] using this
  | cons seg rest ih =>
    intro i s0 h
    simp only [weave]
    have hy : ∀ x ∈ (markedHole k i ++ weave (markedHole k) (i + 1) seg rest).head?,
        x ∉ (placeholder k).tail := by
      intro x hx
      rcases head_markedHole k i _ x hx with rfl | rfl
      · exact percent_not_mem_tail k
      · exact brace_not_mem_tail k
    rw [replaceScan_clean _ _ _ hy s0 (h s0 (by simp)), replaceScan_markedHole,
      ih (i + 1) seg (fun s hs => h s (List.mem_cons_of_mem _ hs))]

theorem markPlaceholders_succ (k : Nat) (s : List Char) :
    markPlaceholders (k + 1) s =
      replaceScan (placeholder k) ['%', 's'] 0 (markPlaceholders k s) := by
  simp only [markPlaceholders, List.range_succ, List.foldl_append, List.foldl_cons,
    List.foldl_nil, ReplaceAll]
  rw [if_neg (placeholder_ne_mark k), if_neg (placeholder_ne_nil k)]

theorem markPlaceholders_weave (n : Nat) (s0 : List Char) (segs : List (List Char))
    (hclean : ∀ s ∈ s0 :: segs, ∀ i < n, ¬ placeholder i <:+: s) :
    ∀ k ≤ n, markPlaceholders k (weave placeholder 0 s0 segs) =
      weave (markedHole k) 0 s0 segs := by
  intro k
  induction k with
  | zero =>
    intro _
    exact weave_congr _ _ segs 0 s0 (fun j _ _ => by simp [markedHole])
  | succ k ih =>
    intro hk
    rw [markPlaceholders_succ, ih (Nat.le_of_succ_le hk)]
    exact replaceScan_weave k segs 0 s0 (fun s hs => hclean s hs k hk)

end Weave

section Formatting

theorem sprintfFrom_literal (args : List (List Char)) (a : Nat) (c : Char) (rest : List Char)
    (hc : c ≠ '%') :
    sprintfFrom args a (c :: rest) = (sprintfFrom args a rest).map (fun out => c :: out) := by
  rw [sprintfFrom.eq_def]
  simp [hc]

theorem sprintfFrom_verb_s (args : List (List Char)) (a : Nat) (x : List Char)
    (rest : List Char) (hx : args[a]? = some x) :
    sprintfFrom args a ('%' :: 's' :: rest) =
      (sprintfFrom args (a + 1) rest).map (fun out => x ++ out) := by
  rw [sprintfFrom.eq_def]
  simp [hx]

theorem sprintfFrom_copy (args : List (List Char)) (a : Nat) (y : List Char) :
    ∀ (s : List Char), '%' ∉ s →
      sprintfFrom args a (s ++ y) = (sprintfFrom args a y).map (fun out => s ++ out) := by
  intro s
  induction s with
  | nil => intro _; simp
  | cons c s ih =>
    intro h
    have hc : c ≠ '%' := fun hc => h (hc ▸ List.mem_cons_self _ _)
    rw [List.cons_append, sprintfFrom_literal _ _ _ _ hc,
      ih (fun hs => h (List.mem_cons_of_mem _ hs))]
    cases sprintfFrom args a y <;> simp

theorem sprintfFrom_weave (args : List (List Char)) :
    ∀ (segs : List (List Char)) (i : Nat) (s0 : List Char),
      i + segs.length = args.length → (∀ s ∈ s0 :: segs, '%' ∉ s) →
      sprintfFrom args i (weave (markedHole args.length) i s0 segs) =
        some (weave (fun j => args.getD j []) i s0 segs) := by
  intro segs
  induction segs with
  | nil =>
    intro i s0 hlen hpct
    have h := sprintfFrom_copy args i [] s0 (hpct s0 (by simp))
    simp only [List.length_nil, Nat.add_zero] at hlen
    simpa [weave, sprintfFrom, hlen, extraOperands] using h
  | cons seg rest ih =>
    intro i s0 hlen hpct
    simp only [List.length_cons] at hlen
    have hi : i < args.length := by omega
    have hm : markedHole args.length i = ['%', 's'] := by simp [markedHole, hi]
    have hget : args[i]? = some (args.getD i []) := by
      rw [List.getD_eq_getElem?_getD, List.getElem?_eq_getElem hi]
      rfl
    have hrec := ih (i + 1) seg (by omega) (fun s hs => hpct s (List.mem_cons_of_mem _ hs))
    simp only [weave]
    rw [sprintfFrom_copy args i _ s0 (hpct s0 (by simp)), hm]
    rw [show ['%', 's'] ++ weave (markedHole args.length) (i + 1) seg rest
        = '%' :: 's' :: weave (markedHole args.length) (i + 1) seg rest from rfl,
      sprintfFrom_verb_s _ _ _ _ hget, hrec]
    rfl

end Formatting

section Witnesses

/-- The scenario of C3 on the journal adapters `X` and `Y`: the channel is open at the
polls 0 and 1 and closed at the poll 2, the `Start` goroutines run before the second poll,
and `Stop` of `X`, the first adapter, fails; `Stop` of `Y` is called all the same. -/
theorem Run_stops_each_adapter_in_order_witness :
    (∃ d, botJournal.Run id lateSchedule (fun j => decide (2 ≤ j)) 3 [] = some d ∧
      stopCalls d.trace = botJournal.adapters ∧ replay d.trace [] = some d.world ∧
      ((∀ t, lateSchedule t = []) →
        d.world = botJournal.adapters.foldl (fun w a => (a.Stop w).2) [])) ∧
    (botJournal.Run id lateSchedule (fun j => decide (2 ≤ j)) 3 []).map (fun d => d.world)
      = some ["Y.Start", "X.Start", "X.Stop", "Y.Stop"] ∧
    (botJournal.Run id lateSchedule (fun j => decide (2 ≤ j)) 3 []).map
        (fun d => (printed d.trace).drop 3)
      = some [startErrorLog "X" "connection refused", exitingLog, stopErrorLog "X" "busy"] :=
  ⟨Run_stops_each_adapter_in_order botJournal id lateSchedule (fun j => decide (2 ≤ j)) 2 3 []
    (by intro j hj; interval_cases j <;> rfl) (by rfl) (by decide), by decide, by decide⟩

/-- The scenario of C4: of the modules `a.so`, `b.so`, `c.so` the second does not open. -/
theorem LoadPluginsFromDir_stops_at_first_failure_witness :
    (botXY.LoadPluginsFromDir demoLoader "./plugins" ()).value = some "not a plugin" ∧
      (botXY.LoadPluginsFromDir demoLoader "./plugins" ()).bot =
        { botXY with plugins := botXY.plugins ++ [pluginOf "a.so"] } ∧
      openedFiles (botXY.LoadPluginsFromDir demoLoader "./plugins" ()).trace
        = ["a.so"] ++ ["b.so"] :=
  (LoadPluginsFromDir_stops_at_first_failure demoLoader botXY "./plugins" ()).2.2.2
    ["a.so"] "b.so" ["c.so"] [pluginOf "a.so"] "not a plugin" rfl rfl rfl

end Witnesses

section LockDiscipline

variable {W H S : Type}

theorem unlockedAccesses_dispatchLoop (held : Bool) (e : Event) (rest : List (Act W)) :
    ∀ (ps : List (Plugin W)) (w : W),
      unlockedAccesses held ((dispatchLoop e ps w).2 ++ rest) = unlockedAccesses held rest := by
  intro ps
  induction ps with
  | nil => intro w; rfl
  | cons p ps ih =>
    intro w
    simp only [dispatchLoop, List.cons_append, List.append_assoc, unlockedAccesses,
      Act.touchesRegistry, Bool.false_and]
    cases (p.HandleEvent e w).1 <;>
      simp [unlockedAccesses, Act.touchesRegistry, ih]

theorem loadLoop_guarded (L : Loader W H S) :
    ∀ (files : List String) (b : Bot W) (w : W),
      unlockedAccesses false (loadLoop L files b w).trace = 0 := by
  intro files
  induction files with
  | nil => intro b w; rfl
  | cons f files ih =>
    intro b w
    simp only [loadLoop]
    cases hf : loadFile L f with
    | error err => simp [unlockedAccesses, Act.touchesRegistry]
    | ok p =>
      simpa [unlockedAccesses, Act.touchesRegistry, Bot.AddPlugin] using
        ih (b.AddPlugin p w).bot (b.AddPlugin p w).world

/-- The operations that take the mutex: every registry access of `AddAdapter`,
`AddPlugin`, `GetAdapter`, `GetPlugin`, `HandleEvent`, `ReloadPlugins` and
`LoadPluginsFromDir` happens while it is held. -/
theorem registry_operations_guarded (b : Bot W) (a : Adapter W) (p : Plugin W) (e : Event)
    (name dir : String) (L : Loader W H S) (w : W) :
    guarded (b.AddAdapter a w).trace = true ∧ guarded (b.AddPlugin p w).trace = true ∧
      guarded (b.GetAdapter name w).trace = true ∧ guarded (b.GetPlugin name w).trace = true ∧
      guarded (b.HandleEvent e w).trace = true ∧ guarded (b.ReloadPlugins w).trace = true ∧
      guarded (b.LoadPluginsFromDir L dir w).trace = true := by
  refine ⟨rfl, rfl, rfl, rfl, ?_, rfl, ?_⟩
  · simp [guarded, Bot.HandleEvent, unlockedAccesses, unlockedAccesses_dispatchLoop]
  · simp only [guarded, Bot.LoadPluginsFromDir]
    cases hg : L.Glob (L.Join dir "*.so") with
    | error err => rfl
    | ok files =>
      simpa [unlockedAccesses, Act.touchesRegistry] using loadLoop_guarded L files b w

/-- Whenever `Run` returns, its trace has a registry access made with the mutex free. -/
theorem Run_not_guarded (b : Bot W) (lower : String → String) (sched : Nat → List Nat)
    (closes : Nat → Bool) (fuel : Nat) (w : W) (d : Ran W)
    (h : b.Run lower sched closes fuel w = some d) :
    guarded d.trace = false := by
  simp only [Bot.Run] at h
  cases hp : pollLoop b sched closes fuel 0 b.adapters.length b.shouldExit
      (startLoop sched b.adapters 0 [] w).pending (startLoop sched b.adapters 0 [] w).world with
  | none => simp [hp] at h
  | some d0 =>
    simp only [hp, Option.some.injEq] at h
    subst h
    simp [guarded, Bot.showBotState, unlockedAccesses, Act.touchesRegistry]

/-- C9, on the bot with the adapters `X` and `Y` when every `Start` goroutine runs right
after its launch and the channel is closed at the first poll: the trace of `Run` is not
guarded; it has four registry accesses made with the mutex free, two of them in
`showBotState` (`len(b.adapters)`, `len(b.plugins)`), one for the start loop and one for
the stop loop (`range b.adapters`, twice); `Run` never takes the mutex.  The six registry
operations on the same bot are guarded. -/
theorem Run_reads_registries_without_mutex :
    (botXY.Run id (fun _ => [0]) (fun _ => true) 1 ()).map
        (fun d => (guarded d.trace, unlockedAccesses false d.trace)) = some (false, 4) ∧
      unlockedAccesses false (botXY.showBotState id) = 2 ∧
      unlockedAccesses false
        (Act.readAdapters :: (startLoop (fun _ => [0]) botXY.adapters 0 [] ()).trace) = 1 ∧
      unlockedAccesses false
        (Act.readAdapters :: (stopLoop (fun _ => [0]) botXY.adapters 0 [] ()).trace) = 1 ∧
      guarded (botXY.AddAdapter adapterX ()).trace = true ∧
      guarded (botXY.GetAdapter "X" ()).trace = true ∧
      guarded (botXY.HandleEvent { Name := "ping", Handled := false } ()).trace = true := by
  decide

end LockDiscipline

section ShutdownOnce

variable {W : Type}

theorem ofBot_NewBot (decode : String → Except String Config) (configFile : String)
    (b : Bot W) (hb : NewBot decode configFile = .ok b) : Shutdown.ofBot b = Shutdown.fresh := by
  simp only [NewBot] at hb
  cases hc : loadConfig decode configFile with
  | error err => simp [hc] at hb
  | ok config =>
    simp only [hc, Except.ok.injEq] at hb
    subst hb
    rfl

/-- C6 (amended): for a bot made by `NewBot`, as long as `Run` is entered at most once,
whatever signals are delivered and however the listener is scheduled:
`close(b.shouldExit)` never hits a closed channel and is executed at most once, and the
channel is closed exactly when it was executed once; the channel stays open, with no
`close` executed, as long as no signal is delivered after `Run` was entered, and after
that as long as the listener has not been scheduled with the signal in its channel; and
when, in a process that no earlier signal has ended, `Run` is entered, a signal is
delivered after that and the listener is scheduled after the signal, the channel is closed
by exactly one `close`; a signal delivered before `Run` was ever entered ends the process,
and the channel is never closed. -/
theorem shouldExit_closed_once_when_Run_entered_once
    (decode : String → Except String Config) (configFile : String) (b : Bot W)
    (hb : NewBot decode configFile = .ok b) :
    (∀ steps, runEntries steps ≤ 1 →
      ((Shutdown.ofBot b).exec steps).closedTwice = false ∧
        ((Shutdown.ofBot b).exec steps).closeCalls ≤ 1 ∧
        (((Shutdown.ofBot b).exec steps).closed = true ↔
          ((Shutdown.ofBot b).exec steps).closeCalls = 1)) ∧
    (∀ pre mid, Step.enterRun ∉ pre → Step.enterRun ∉ mid → Step.signal ∉ mid →
      ((Shutdown.ofBot b).exec (pre ++ .enterRun :: mid)).closed = false ∧
        ((Shutdown.ofBot b).exec (pre ++ .enterRun :: mid)).closeCalls = 0) ∧
    (∀ pre mid wait, Step.enterRun ∉ pre → Step.enterRun ∉ mid → Step.signal ∉ mid →
      Step.enterRun ∉ wait → Step.receive 0 ∉ wait →
      ((Shutdown.ofBot b).exec (pre ++ .enterRun :: (mid ++ .signal :: wait))).closed = false ∧
        ((Shutdown.ofBot b).exec (pre ++ .enterRun :: (mid ++ .signal :: wait))).closeCalls
          = 0) ∧
    (∀ pre mid wait post, Step.enterRun ∉ pre → Step.signal ∉ pre → Step.enterRun ∉ mid →
      Step.enterRun ∉ wait → Step.enterRun ∉ post →
      ((Shutdown.ofBot b).exec
          (pre ++ .enterRun :: (mid ++ .signal :: (wait ++ .receive 0 :: post)))).closeCalls = 1 ∧
        ((Shutdown.ofBot b).exec
          (pre ++ .enterRun :: (mid ++ .signal :: (wait ++ .receive 0 :: post)))).closed = true ∧
        ((Shutdown.ofBot b).exec
          (pre ++ .enterRun :: (mid ++ .signal :: (wait ++ .receive 0 :: post)))).closedTwice
            = false) ∧
    (∀ pre rest, Step.enterRun ∉ pre → Step.signal ∈ pre →
      ((Shutdown.ofBot b).exec (pre ++ rest)).closed = false ∧
        ((Shutdown.ofBot b).exec (pre ++ rest)).closeCalls = 0) := by
  rw [ofBot_NewBot decode configFile b hb]
  refine ⟨fun steps h => safe_of_reachable _ (reachable_with_one_Run steps _ (Or.inl rfl) h),
    open_until_signal, open_until_receive, ?_, ?_⟩
  · intro pre mid wait post hpre hpresig hmid hwait hpost
    obtain ⟨l, _, htw, _, _, hc, hn⟩ := fired_after_signal_and_receive pre mid wait post hpre
      hpresig hmid hwait hpost
    exact ⟨hn, hc, htw⟩
  · intro pre rest hrun hsig
    rw [exec_append, ended_of_early_signal pre hrun hsig, ended_exec]
    exact ⟨rfl, rfl⟩

/-- The scenario of C6 with one `Run`: the listener is scheduled before any signal and the
channel stays open; a first signal is delivered and the channel is still open until the
listener is scheduled; then it is closed once, also after a second signal and a second
scheduling; and a signal before `Run` is entered leaves the channel open for good. -/
theorem shouldExit_closed_once_when_Run_entered_once_witness :
    (((Shutdown.ofBot freshBot).exec
        ([.receive 0] ++ .enterRun :: [.receive 0, .receive 1])).closed = false ∧
      ((Shutdown.ofBot freshBot).exec
        ([.receive 0] ++ .enterRun :: [.receive 0, .receive 1])).closeCalls = 0) ∧
    (((Shutdown.ofBot freshBot).exec
        ([.receive 0] ++ .enterRun :: ([.receive 0] ++ .signal :: [.signal, .receive 1]))).closed
          = false ∧
      ((Shutdown.ofBot freshBot).exec
        ([.receive 0] ++ .enterRun ::
          ([.receive 0] ++ .signal :: [.signal, .receive 1]))).closeCalls = 0) ∧
    (((Shutdown.ofBot freshBot).exec
        ([.receive 0] ++ .enterRun :: ([.receive 0] ++ .signal :: ([.signal] ++ .receive 0 ::
          [.signal, .receive 0])))).closeCalls = 1 ∧
      ((Shutdown.ofBot freshBot).exec
        ([.receive 0] ++ .enterRun :: ([.receive 0] ++ .signal :: ([.signal] ++ .receive 0 ::
          [.signal, .receive 0])))).closed = true ∧
      ((Shutdown.ofBot freshBot).exec
        ([.receive 0] ++ .enterRun :: ([.receive 0] ++ .signal :: ([.signal] ++ .receive 0 ::
          [.signal, .receive 0])))).closedTwice = false) ∧
    (((Shutdown.ofBot freshBot).exec
        ([.signal] ++ [.enterRun, .signal, .receive 0])).closed = false ∧
      ((Shutdown.ofBot freshBot).exec
        ([.signal] ++ [.enterRun, .signal, .receive 0])).closeCalls = 0) :=
  ⟨(shouldExit_closed_once_when_Run_entered_once (fun _ => .ok demoConfig) "config.json"
      freshBot rfl).2.1 [.receive 0] [.receive 0, .receive 1] (by decide) (by decide)
      (by decide),
    (shouldExit_closed_once_when_Run_entered_once (fun _ => .ok demoConfig) "config.json"
      freshBot rfl).2.2.1 [.receive 0] [.receive 0] [.signal, .receive 1] (by decide)
      (by decide) (by decide) (by decide) (by decide),
    (shouldExit_closed_once_when_Run_entered_once (fun _ => .ok demoConfig) "config.json"
      freshBot rfl).2.2.2.1 [.receive 0] [.receive 0] [.signal] [.signal, .receive 0]
      (by decide) (by decide) (by decide) (by decide) (by decide),
    (shouldExit_closed_once_when_Run_entered_once (fun _ => .ok demoConfig) "config.json"
      freshBot rfl).2.2.2.2 [.signal] [.enterRun, .signal, .receive 0] (by decide)
      (by decide)⟩

/-- C6 as stated fails: on the bot that `NewBot` returns, when `Run` is entered, a signal
closes the channel, `Run` is entered again and a second signal is delivered, the second
listener executes `close(b.shouldExit)` on the closed channel; the same happens when `Run`
is entered twice before one signal.  Nothing guards the second `close`. -/
theorem shouldExit_closed_twice_when_Run_reentered :
    NewBot (fun _ => .ok demoConfig) "config.json" = .ok freshBot ∧
      ((Shutdown.ofBot freshBot).exec
        [.enterRun, .signal, .receive 0, .enterRun, .signal, .receive 1]).closeCalls = 2 ∧
      ((Shutdown.ofBot freshBot).exec
        [.enterRun, .signal, .receive 0, .enterRun, .signal, .receive 1]).closedTwice = true ∧
      ((Shutdown.ofBot freshBot).exec
        [.enterRun, .enterRun, .signal, .receive 0, .receive 1]).closeCalls = 2 ∧
      ((Shutdown.ofBot freshBot).exec
        [.enterRun, .enterRun, .signal, .receive 0, .receive 1]).closedTwice = true :=
  ⟨rfl, by decide, by decide, by decide, by decide⟩

end ShutdownOnce

section Substitution

theorem substituteScan_skip (texts : List (List Char)) :
    ∀ (s : List Char) (k : Nat),
      substituteScan texts k s = substituteScan texts 0 (s.drop k) := by
  intro s
  induction s with
  | nil => intro k; cases k <;> rfl
  | cons c cs ih =>
    intro k
    cases k with
    | zero => rfl
    | succ k => simpa [substituteScan] using ih k

theorem placeholderAt_eq_none (n : Nat) (s : List Char)
    (h : ∀ i < n, ¬ placeholder i <+: s) : placeholderAt n s = none := by
  simp only [placeholderAt, List.find?_eq_none, List.mem_range]
  intro i hi
  simpa using h i hi

theorem placeholderAt_placeholder (n i : Nat) (rest : List Char) (hi : i < n) :
    placeholderAt n (placeholder i ++ rest) = some i := by
  cases h : placeholderAt n (placeholder i ++ rest) with
  | none =>
    simp only [placeholderAt, List.find?_eq_none, List.mem_range] at h
    have := h i hi
    simp at this
  | some j =>
    have hj := List.find?_some h
    simp only [List.isPrefixOf_iff_prefix] at hj
    rw [placeholder_prefix_placeholder j i rest hj]

theorem substituteScan_found (texts : List (List Char)) (c : Char) (cs : List Char) (i : Nat)
    (h : placeholderAt texts.length (c :: cs) = some i) :
    substituteScan texts 0 (c :: cs) =
      texts.getD i [] ++ substituteScan texts ((placeholder i).length - 1) cs := by
  simp only [substituteScan, h]

theorem substituteScan_literal (texts : List (List Char)) (c : Char) (cs : List Char)
    (h : placeholderAt texts.length (c :: cs) = none) :
    substituteScan texts 0 (c :: cs) = c :: substituteScan texts 0 cs := by
  simp only [substituteScan, h]

theorem substituteScan_placeholder (texts : List (List Char)) (i : Nat) (rest : List Char)
    (hi : i < texts.length) :
    substituteScan texts 0 (placeholder i ++ rest) =
      texts.getD i [] ++ substituteScan texts 0 rest := by
  have hfind : placeholderAt texts.length ('{' :: ((placeholder i).tail ++ rest)) = some i :=
    placeholderAt_placeholder texts.length i rest hi
  have hstep := substituteScan_found texts '{' ((placeholder i).tail ++ rest) i hfind
  have hlen : (placeholder i).length - 1 = (placeholder i).tail.length := by simp
  rw [hlen, substituteScan_skip texts ((placeholder i).tail ++ rest)
    (placeholder i).tail.length, List.drop_left] at hstep
  exact hstep

theorem substituteScan_clean (texts : List (List Char)) (y : List Char)
    (hy : ∀ x ∈ y.head?, x = '{') :
    ∀ (a : List Char), (∀ i < texts.length, ¬ placeholder i <:+: a) →
      substituteScan texts 0 (a ++ y) = a ++ substituteScan texts 0 y := by
  intro a
  induction a with
  | nil => intro _; rfl
  | cons c a ih =>
    intro hclean
    have hnone : placeholderAt texts.length (c :: (a ++ y)) = none :=
      placeholderAt_eq_none _ _ (fun i hi =>
        not_prefix_of_clean (placeholder i) (c :: a) y (by simp) (hclean i hi)
          (fun x hx => by rw [hy x hx]; exact brace_not_mem_tail i))
    rw [List.cons_append, substituteScan_literal texts c (a ++ y) hnone,
      ih (fun i hi h => hclean i hi (List.infix_cons h))]
    rfl

theorem substituteScan_weave (texts : List (List Char)) :
    ∀ (segs : List (List Char)) (i : Nat) (s0 : List Char),
      i + segs.length = texts.length →
      (∀ s ∈ s0 :: segs, ∀ j < texts.length, ¬ placeholder j <:+: s) →
      substituteScan texts 0 (weave placeholder i s0 segs) =
        weave (fun j => texts.getD j []) i s0 segs := by
  intro segs
  induction segs with
  | nil =>
    intro i s0 _ h
    have := substituteScan_clean texts [] (by simp) s0 (h s0 (by simp))
    simpa [weave, substituteScan] using this
  | cons seg rest ih =>
    intro i s0 hlen h
    simp only [List.length_cons] at hlen
    simp only [weave]
    rw [substituteScan_clean texts _ (by simp [placeholder_eq]) s0 (h s0 (by simp)),
      substituteScan_placeholder texts i _ (by omega),
      ih (i + 1) seg (by omega) (fun s hs => h s (List.mem_cons_of_mem _ hs))]

end Substitution

section PrintMessage

theorem not_infix_of_no_brace (i : Nat) (s : List Char) (h : '{' ∉ s) :
    ¬ placeholder i <:+: s := by
  intro hin
  exact h (hin.subset (by simp [placeholder_eq]))

theorem Sprintf_markPlaceholders_weave (texts : List (List Char)) (s0 : List Char)
    (segs : List (List Char)) (hlen : segs.length = texts.length)
    (hpct : ∀ s ∈ s0 :: segs, '%' ∉ s)
    (hclean : ∀ s ∈ s0 :: segs, ∀ i < texts.length, ¬ placeholder i <:+: s) :
    Sprintf (markPlaceholders texts.length (weave placeholder 0 s0 segs)) texts =
      some (weave (fun j => texts.getD j []) 0 s0 segs) := by
  rw [markPlaceholders_weave texts.length s0 segs hclean texts.length (Nat.le_refl _)]
  exact sprintfFrom_weave texts segs 0 s0 (by omega) hpct

/-- The formats on which `Print` agrees with the substitution by index: when `Format` is
empty the message is the concatenation of `Text`.  When `Format` is not empty and is
`s0 {text[0]} s1 {text[1]} ... {text[n-1]} sn` with `n = len(Text)`, where no literal
piece `s0, ..., sn` holds a `%` or a placeholder `{text[i]}` with `i < n` (the placeholders
occur once each, in index order), the message is `Format` with every occurrence of each
placeholder `{text[i]}` replaced by `Text[i]`, which is
`s0 Text[0] s1 Text[1] ... Text[n-1] sn`. -/
theorem Print_message_of_ordered_format (l : LogWithColorAndStyle) :
    (l.Format = "" → l.message = some (String.join l.Text)) ∧
    (∀ (s0 : List Char) (segs : List (List Char)),
      l.Format ≠ "" → l.Format.data = weave placeholder 0 s0 segs →
      segs.length = l.Text.length →
      (∀ s ∈ s0 :: segs, '%' ∉ s ∧ ∀ i < l.Text.length, ¬ placeholder i <:+: s) →
      l.message = some l.substituted ∧
        l.substituted = String.mk (weave (fun i => (l.Text.getD i "").data) 0 s0 segs)) := by
  constructor
  · intro h
    simp [LogWithColorAndStyle.message, h]
  · intro s0 segs hne hshape hlen hclean
    have hmsg := Sprintf_markPlaceholders_weave (l.Text.map String.data) s0 segs
      (by simpa using hlen) (fun s hs => (hclean s hs).1)
      (fun s hs i hi => (hclean s hs).2 i (by simpa using hi))
    have hsub := substituteScan_weave (l.Text.map String.data) segs 0 s0
      (by simpa using hlen) (fun s hs i hi => (hclean s hs).2 i (by simpa using hi))
    have hget : weave (fun j => (l.Text.map String.data).getD j []) 0 s0 segs =
        weave (fun i => (l.Text.getD i "").data) 0 s0 segs :=
      weave_congr _ _ segs 0 s0 (fun j _ _ => by
        rw [List.getD_eq_getElem?_getD, List.getD_eq_getElem?_getD, List.getElem?_map]
        cases l.Text[j]? <;> rfl)
    rw [List.length_map] at hmsg
    constructor
    · simp only [LogWithColorAndStyle.message, if_neg hne, hshape, hmsg, Option.map_some',
        LogWithColorAndStyle.substituted, hsub]
    · simp only [LogWithColorAndStyle.substituted, hshape, hsub, hget]

/-- The log line of `loadConfig`, `Loading config file {text[0]}` with one text. -/
theorem Print_message_of_loadConfig :
    loadingLog.message = some loadingLog.substituted ∧
      loadingLog.substituted = "Loading config file config.json" :=
  (Print_message_of_ordered_format loadingLog).2 "Loading config file ".data [[]]
    (by decide) rfl rfl
    (by
      intro s hs
      have hb : '{' ∉ s ∧ '%' ∉ s := by
        rcases List.mem_cons.1 hs with rfl | hs
        · decide
        · rw [List.mem_singleton.1 hs]; decide
      exact ⟨hb.2, fun i _ => not_infix_of_no_brace i s hb.1⟩)

/-- C10, on three log lines with a non-empty `Format` without `%`: the message that
`Print` builds is not `Format` with every placeholder `{text[i]}` replaced by `Text[i]`.
Placeholders out of index order get the texts in the order of `Text` (`a b`, where the
substitution by index gives `b a`); a placeholder used twice gets `%!s(MISSING)` the second
time (where it gives `aa`); and a text without placeholder is appended as `%!(EXTRA ...)`
(where it is left out): `Print` replaces every placeholder by `%s` and lets `fmt.Sprintf`
assign the texts by position. -/
theorem Print_message_is_positional :
    (swappedLog.Format ≠ "" ∧ '%' ∉ swappedLog.Format.data ∧
        swappedLog.message = some "a b" ∧ swappedLog.substituted = "b a" ∧
        swappedLog.message ≠ some swappedLog.substituted) ∧
      (repeatedLog.Format ≠ "" ∧ '%' ∉ repeatedLog.Format.data ∧
        repeatedLog.message = some "a%!s(MISSING)" ∧ repeatedLog.substituted = "aa" ∧
        repeatedLog.message ≠ some repeatedLog.substituted) ∧
      (unreferencedLog.Format ≠ "" ∧ '%' ∉ unreferencedLog.Format.data ∧
        unreferencedLog.message = some "hello a%!(EXTRA string=b)" ∧
        unreferencedLog.substituted = "hello a" ∧
        unreferencedLog.message ≠ some unreferencedLog.substituted) := by
  decide

end PrintMessage

end Iamaigo
